import Mathlib

/-!
Shallow embedding of the RISC Zero execution bridge
(`risc0/zkvm/src/prove/exec.rs`): the `MachineContext` state, its per-cycle
extern operations (`halt`, `getMajor`, `pageInfo`, `ramRead`/`ramWrite`,
`divide`, `bigintDivide`, `log`, `syscallBody`/`syscallFini`), and theorems
about them.

Machine integers (`u32`, `u64`) are embedded as `Nat` with explicit
`% 2 ^ 32` wrapping where overflow matters.  Fallible Rust code is embedded
in `Except ExecErr`: `anyhow::bail!` / `anyhow!` errors (recoverable
`Result::Err`) become `.error (.bail msg)`, and Rust panics — explicit
`panic!`, failed `assert!`, `unimplemented!`, and out-of-bounds slice
indexing — become `.error (.fatal msg)`.
-/

namespace Risc0Exec

/-- Error type distinguishing recoverable `anyhow` errors (`bail`) from
fatal aborts (`fatal`): panics, assertion failures, `unimplemented!`, and
out-of-bounds indexing. -/
inductive ExecErr where
  | bail (msg : String)
  | fatal (msg : String)
  deriving Repr, DecidableEq

/-- Modelled from the spec: the bigint coprocessor's fixed limb width `W`
(`risc0_zkvm_platform::syscall::bigint::WIDTH_BYTES`, not included in the
sources; the platform crate fixes it at 32 bytes = 256 bits). -/
def WIDTH_BYTES : Nat := 32

/-- Modelled from the spec: `halt::TERMINATE` exit mode
(`risc0_zkvm_platform::syscall::halt`, not included in the sources). -/
def haltTERMINATE : Nat := 0

/-- Modelled from the spec: `halt::PAUSE` exit mode. -/
def haltPAUSE : Nat := 1

/-- Modelled from the spec: `halt::SPLIT` exit mode. -/
def haltSPLIT : Nat := 2

/-- Modelled from the spec: `ecall::HALT` minor code
(`risc0_zkvm_platform::syscall::ecall`, not included in the sources). -/
def ecallHALT : Nat := 0

/-- Modelled from the spec: start address of the `SYSTEM` memory region
holding the register file (`risc0_zkvm_platform::memory::SYSTEM`, not
included in the sources).  Word aligned; the exact value is irrelevant to
the claims. -/
def SYSTEM_START : Nat := 0x0C000000

/-- Modelled from the spec: RISC-V ABI register index of `t0` (x5). -/
def REG_T0 : Nat := 5

/-- Modelled from the spec: RISC-V ABI register index of `a0` (x10). -/
def REG_A0 : Nat := 10

/-- `WORD_SIZE` from `risc0_zkvm_platform`: bytes per word. -/
def WORD_SIZE : Nat := 4

/-- Bitwise complement on `u32`: Rust `!x` equals `0xFFFFFFFF - x` for
`x < 2^32`. -/
def not32 (x : Nat) : Nat := 0xFFFFFFFF - x

/-- `enum MemoryOp { PageIo, Read, Write }` from `exec.rs`. -/
inductive MemoryOp where
  | pageIo
  | read
  | write
  deriving Repr, DecidableEq

/-- `MemoryOp::as_u32`: the Rust discriminant (declaration order from 0). -/
def MemoryOp.as_u32 : MemoryOp → Nat
  | .pageIo => 0
  | .read => 1
  | .write => 2

/-- Modelled from the spec: the `ExitCode` classification of a segment
(`crate::ExitCode`, not included in the sources); the spec lists
Terminate, Pause, Split(at-instruction) and SystemSplit(at-instruction). -/
inductive ExitCode where
  | terminate
  | paused (code : Nat)
  | split (insn : Nat)
  | systemSplit (insn : Nat)
  deriving Repr, DecidableEq

/-- Modelled from the spec: the opcode major classification
(`crate::opcode::MajorType`, not included in the sources).  Only `ECall`
and `PageFault` are branched on by the bridge; every other major class is
kept abstract as `other code`. -/
inductive MajorType where
  | eCall
  | pageFault
  | other (code : Nat)
  deriving Repr, DecidableEq

/-- Modelled from the spec: the result of `OpCode::decode`
(`crate::opcode::OpCode`, not included in the sources): a major class and
a minor code. -/
structure OpCode where
  major : MajorType
  minor : Nat
  deriving Repr, DecidableEq

/-- `session::PageFaults` (declared outside the included sources; the spec
describes it as two ordered sets of page indices).  `BTreeSet<u32>` is
embedded as `Finset Nat`: `pop_last` takes the maximum, `pop_first` the
minimum. -/
structure PageFaults where
  reads : Finset Nat
  writes : Finset Nat

/-- The `MachineContext` bridge state from `exec.rs`, together with the
byte buffer of its `MemoryState`.  The plonk tables and accumulators of
`MemoryState` are not modelled (no claim concerns them); `VecDeque` is
embedded as `List` with `pop_front` taking the head, and the
`BTreeSet<u32>` of resident words as `Finset Nat`. -/
structure MachineContext where
  buf : Nat → Nat
  faults : PageFaults
  syscall_out_data : List Nat
  syscall_out_regs : List (Nat × Nat)
  is_halted : Bool
  is_flushing : Bool
  resident_words : Finset Nat
  exit_code : ExitCode
  insn_counter : Nat

/-- `MemoryState::load_u8`. -/
def loadU8 (s : MachineContext) (addr : Nat) : Nat := s.buf addr

/-- Pure little-endian combination of the four bytes at `addr`. -/
def loadWord (s : MachineContext) (addr : Nat) : Nat :=
  loadU8 s addr ||| (loadU8 s (addr + 1)) <<< 8 ||| (loadU8 s (addr + 2)) <<< 16 |||
    (loadU8 s (addr + 3)) <<< 24

/-- `MemoryState::load_u32`: asserts 4-byte alignment (panic on violation),
then combines the four bytes little-endian. -/
def load_u32 (s : MachineContext) (addr : Nat) : Except ExecErr Nat :=
  if addr % WORD_SIZE = 0 then .ok (loadWord s addr)
  else .error (.fatal "unaligned load")

/-- `get_register_addr`. -/
def get_register_addr (idx : Nat) : Nat := SYSTEM_START + idx * WORD_SIZE

/-- `MemoryState::load_register`. -/
def load_register (s : MachineContext) (idx : Nat) : Except ExecErr Nat :=
  load_u32 s (get_register_addr idx)

/-- `MemoryState::store_u8`. -/
def storeU8 (s : MachineContext) (addr value : Nat) : MachineContext :=
  { s with buf := fun a => if a = addr then value else s.buf a }

/-- `MemoryState::store_u32` by way of `store_region` on the four
little-endian bytes; asserts 4-byte alignment (panic on violation). -/
def store_u32 (s : MachineContext) (addr value : Nat) : Except ExecErr MachineContext :=
  if addr % WORD_SIZE = 0 then
    .ok (storeU8 (storeU8 (storeU8 (storeU8 s addr (value % 256))
      (addr + 1) (value / 256 % 256)) (addr + 2) (value / 65536 % 256))
      (addr + 3) (value / 16777216 % 256))
  else .error (.fatal "unaligned store")

/-- `split_word8`: a `u32` split into four base-256 limbs. -/
def split_word8 (value : Nat) : Nat × Nat × Nat × Nat :=
  (value &&& 0xff, (value >>> 8) &&& 0xff, (value >>> 16) &&& 0xff, (value >>> 24) &&& 0xff)

/-- `merge_word8`: four byte limbs combined into a `u32`. -/
def merge_word8 : Nat × Nat × Nat × Nat → Nat
  | (x0, x1, x2, x3) => x0 ||| x1 <<< 8 ||| x2 <<< 16 ||| x3 <<< 24

/-- `MachineContext::halt`: a no-op when already halted; otherwise sets
`is_flushing` on `PAUSE`, panics (`unimplemented!`) on an unsupported exit
code, and finally sets `is_halted`. -/
def halt (s : MachineContext) (exit_code _pc : Nat) : Except ExecErr MachineContext :=
  if s.is_halted then .ok s
  else if exit_code = haltTERMINATE then .ok { s with is_halted := true }
  else if exit_code = haltPAUSE then .ok { s with is_flushing := true, is_halted := true }
  else if exit_code = haltSPLIT then .ok { s with is_halted := true }
  else .error (.fatal "Unsupported exit_code")

/-- `MachineContext::page_info`: drains the read-fault set highest page
first (`pop_last`); once empty and only while flushing, drains the
write-fault set lowest page first (`pop_first`); otherwise reports done. -/
def page_info (s : MachineContext) : (Nat × Nat × Nat) × MachineContext :=
  if h : s.faults.reads.Nonempty then
    let page_idx := s.faults.reads.max' h
    ((1, page_idx, 0),
      { s with faults := { s.faults with reads := s.faults.reads.erase page_idx } })
  else
    if s.is_flushing then
      if h : s.faults.writes.Nonempty then
        let page_idx := s.faults.writes.min' h
        ((0, page_idx, 0),
          { s with faults := { s.faults with writes := s.faults.writes.erase page_idx } })
      else ((0, 0, 1), s)
    else ((0, 0, 1), s)

/-- `MachineContext::syscall_body`: pops the front of the queued syscall
data, defaulting to 0 when the queue is exhausted (`unwrap_or_default`). -/
def syscall_body (s : MachineContext) : Except ExecErr (Nat × MachineContext) :=
  match s.syscall_out_data with
  | [] => .ok (0, s)
  | x :: rest => .ok (x, { s with syscall_out_data := rest })

/-- `MachineContext::syscall_fini`: pops the front of the queued syscall
register pairs; an exhausted queue is a recoverable `anyhow` error. -/
def syscall_fini (s : MachineContext) : Except ExecErr ((Nat × Nat) × MachineContext) :=
  match s.syscall_out_regs with
  | [] => .error (.bail "Invalid syscall records")
  | r :: rest => .ok (r, { s with syscall_out_regs := rest })

/-- First paragraph of `MachineContext::get_major`: when the decoded major
class is `ECall` whose minor register holds `HALT` with mode `PAUSE`, set
`is_flushing`. -/
def ecallFlushUpdate (s : MachineContext) (opcode : OpCode) :
    Except ExecErr MachineContext :=
  if opcode.major = MajorType.eCall then do
    let minor ← load_register s REG_T0
    if minor = ecallHALT then do
      let mode ← load_register s REG_A0
      if mode = haltPAUSE then pure { s with is_flushing := true } else pure s
    else pure s
  else pure s

/-- Second paragraph of `MachineContext::get_major`: when the segment's
exit code is `SystemSplit(n)` and the instruction counter has reached `n`,
force `is_flushing` (checking the flag before setting it). -/
def splitFlushUpdate (s : MachineContext) : MachineContext :=
  match s.exit_code with
  | .systemSplit split_insn =>
      if s.insn_counter = split_insn then
        if !s.is_flushing then { s with is_flushing := true } else s
      else s
  | _ => s

/-- `MachineContext::get_major`, parametric in `OpCode::decode` (declared
in `opcode.rs`, outside the included sources).  Loads and decodes the
instruction at `pc`, performs the ECALL-HALT-PAUSE and
`SystemSplit`-boundary `is_flushing` bookkeeping, then gates on the
read-fault queue and the flushing flag before advancing the instruction
counter and reporting the decoded major class. -/
def get_major (decode : Nat → Nat → Except ExecErr OpCode) (s : MachineContext)
    (pc : Nat) : Except ExecErr (MajorType × MachineContext) := do
  let insn ← load_u32 s pc
  let opcode ← decode insn pc
  let s ← ecallFlushUpdate s opcode
  let s := splitFlushUpdate s
  if s.faults.reads.Nonempty then return (MajorType.pageFault, s)
  if s.is_flushing then return (MajorType.pageFault, s)
  return (opcode.major, { s with insn_counter := s.insn_counter + 1 })

/-- `MachineContext::ram_read`: a `PageIo` access marks its word address
resident; any other access on a non-resident address is a fatal panic
(`Memory read before page in`).  Returns the word's four byte limbs. -/
def ram_read (s : MachineContext) (addr op : Nat) :
    Except ExecErr ((Nat × Nat × Nat × Nat) × MachineContext) :=
  if op = MemoryOp.pageIo.as_u32 then
    let s := { s with resident_words := insert addr s.resident_words }
    do
      let word ← load_u32 s (addr * WORD_SIZE)
      return (split_word8 word, s)
  else
    if addr ∈ s.resident_words then do
      let word ← load_u32 s (addr * WORD_SIZE)
      return (split_word8 word, s)
    else .error (.fatal "Memory read before page in")

/-- `MachineContext::ram_write`: a `PageIo` access marks its word address
resident; any other access on a non-resident address is a fatal assertion
failure (`Memory write before page in`).  Stores the merged word. -/
def ram_write (s : MachineContext) (addr : Nat) (data : Nat × Nat × Nat × Nat)
    (op : Nat) : Except ExecErr MachineContext :=
  if op = MemoryOp.pageIo.as_u32 then
    let s := { s with resident_words := insert addr s.resident_words }
    store_u32 s (addr * WORD_SIZE) (merge_word8 data)
  else
    if addr ∈ s.resident_words then
      store_u32 s (addr * WORD_SIZE) (merge_word8 data)
    else .error (.fatal "Memory write before page in")

/-- `MachineContext::divide` on the merged `u32` operands (the source
merges the four byte limbs with `merge_word8` and splits the results back
with `split_word8`; the wrapper below does the same).  `sign` selects
unsigned (0), two's-complement signed (1), or the ones'-complement variant
(2, which suppresses the +1 after bit complement and never negates the
denominator). -/
def divideWords (numer denom sign : Nat) : Nat × Nat :=
  let ones_comp : Nat := if sign = 2 then 1 else 0
  let neg_numer : Bool := decide (sign ≠ 0 ∧ 2 ^ 31 ≤ numer)
  let neg_denom : Bool := decide (sign = 1 ∧ 2 ^ 31 ≤ denom)
  let numer := if neg_numer then (not32 numer + (1 - ones_comp)) % 2 ^ 32 else numer
  let denom := if neg_denom then (not32 denom + (1 - ones_comp)) % 2 ^ 32 else denom
  let quot := if denom = 0 then 0xffffffff else numer / denom
  let rem := if denom = 0 then numer else numer % denom
  let quot_neg_out :=
    ((if neg_numer then 1 else 0) ^^^ (if neg_denom then 1 else 0)) -
      (if denom = 0 then 1 else 0) * (if neg_numer then 1 else 0)
  let quot := if quot_neg_out ≠ 0 then (not32 quot + (1 - ones_comp)) % 2 ^ 32 else quot
  let rem := if neg_numer then (not32 rem + (1 - ones_comp)) % 2 ^ 32 else rem
  (quot, rem)

/-- `MachineContext::divide` with the limb interface of the source. -/
def divide (numer denom : Nat × Nat × Nat × Nat) (sign : Nat) :
    (Nat × Nat × Nat × Nat) × (Nat × Nat × Nat × Nat) :=
  let (quot, rem) := divideWords (merge_word8 numer) (merge_word8 denom) sign
  (split_word8 quot, split_word8 rem)

/-- Rust slice read `l[i]`: out of bounds is a fatal panic. -/
def getIdx (l : List Nat) (i : Nat) : Except ExecErr Nat :=
  match l.get? i with
  | some v => .ok v
  | none => .error (.fatal "index out of bounds")

/-- Rust slice write `l[i] = v`: out of bounds is a fatal panic. -/
def setIdx (l : List Nat) (i : Nat) (v : Nat) : Except ExecErr (List Nat) :=
  if i < l.length then .ok (l.set i v) else .error (.fatal "index out of bounds")

/-- `let mut a = [0u64; k]; for (i, x) in l.iter().enumerate() { a[i] = x }`
for an input of length `k`: the length-`k` zero-padded buffer. -/
def limbBuf (k : Nat) (l : List Nat) : List Nat :=
  (List.range k).map (fun i => l.getD i 0)

/-- `while n > 0 && b[n - 1] == 0 { n -= 1 }`: the denominator's true limb
width after trimming leading zero limbs. -/
def trimWidth (b : List Nat) : Nat → Nat
  | 0 => 0
  | n + 1 => if b.getD n 0 = 0 then trimWidth b n else n + 1

/-- `while (b[n - 1] & (0x80 >> shift_bits)) == 0 { shift_bits += 1 }`:
first `s` (from `s0`) whose bit `7 - s` is set in `x`.  The fuel of 8
covers every terminating run: the trimmed top limb is a nonzero byte, so
the source loop stops within 8 steps. -/
def shiftBitsLoop (x : Nat) : Nat → Nat → Nat
  | s, 0 => s
  | s, fuel + 1 => if x &&& (0x80 >>> s) = 0 then shiftBitsLoop x (s + 1) fuel else s

/-- `for i in 0..k { let tmp = (l[i] << shift) + carry; l[i] = tmp & 0xFF;
carry = tmp >> 8 }`: left-shift the first `k` limbs, threading the carry;
returns the updated limbs (suffix untouched) and the final carry. -/
def shiftLimbs (shift : Nat) : Nat → List Nat → Nat → List Nat × Nat
  | carry, l, 0 => (l, carry)
  | carry, [], _ + 1 => ([], carry)
  | carry, x :: xs, k + 1 =>
      let tmp := (x <<< shift) + carry
      let (rest, c) := shiftLimbs shift (tmp >>> 8) xs k
      ((tmp &&& 0xFF) :: rest, c)

/-- `while q_approx * ((b[n-1] << 8) + b[n-2]) > (top 3 numerator limbs)
{ q_approx -= 1 }`: decrement the digit estimate until the guard fails.
The guard forces `q_approx > 0`, so the loop terminates. -/
def adjustQApprox (top2b top3a : Nat) (qa : Nat) : Nat :=
  if h : qa * top2b > top3a then
    have hq : 0 < qa := by
      rcases Nat.eq_zero_or_pos qa with h0 | h0
      · subst h0; simp at h
      · exact h0
    adjustQApprox top2b top3a (qa - 1)
  else qa
  termination_by qa

/-- `for j in 0..=n { let sub = q_approx * b[j] + borrow; ... }`:
subtract `q_approx` multiples of the denominator from the numerator window
starting at `i`, limb by limb in base 256 with a running borrow.  The
iteration count is passed as fuel (`n + 1` at the call site); `j` is the
current offset. -/
def subMulLoop (qa : Nat) (bArr : List Nat) (i : Nat) :
    Nat → Nat → List Nat → Nat → Except ExecErr (List Nat × Nat)
  | _, 0, a, borrow => .ok (a, borrow)
  | j, cnt + 1, a, borrow => do
      let bj ← getIdx bArr j
      let aij ← getIdx a (i + j)
      let sub := qa * bj + borrow
      if aij < sub % 256 then do
        let a ← setIdx a (i + j) (aij + (256 - sub % 256))
        subMulLoop qa bArr i (j + 1) cnt a (sub / 256 + 1)
      else do
        let a ← setIdx a (i + j) (aij - sub % 256)
        subMulLoop qa bArr i (j + 1) cnt a (sub / 256)

/-- `for j in 0..=n { let tmp = a[i + j] + b[j] + carry; ... }`: add one
multiple of the denominator back into the numerator window starting at
`i`, limb by limb with a running carry. -/
def addBackLoop (bArr : List Nat) (i : Nat) :
    Nat → Nat → List Nat → Nat → Except ExecErr (List Nat × Nat)
  | _, 0, a, carry => .ok (a, carry)
  | j, cnt + 1, a, carry => do
      let bj ← getIdx bArr j
      let aij ← getIdx a (i + j)
      let tmp := aij + bj + carry
      let a ← setIdx a (i + j) (tmp % 256)
      addBackLoop bArr i (j + 1) cnt a (tmp / 256)

/-- `for i in (0..=m).rev() { ... }`: the quotient-digit loop of
`bigint_divide`, iterating the index `i` from `m` down to 0 (the first
argument is `i + 1`, so `m + 1` at the call site).  Each iteration
estimates a digit from the top limbs, multiply-subtracts, corrects an
overshoot detected via the borrow (`underflow` panic if the add-back does
not cancel it: the source computes `borrow - carry != 0` in `u64`, which
for a terminating run means `borrow ≠ carry`), and records the digit —
digits beyond `q`'s width must be zero or the division bails. -/
def divMainLoop (bArr : List Nat) (n : Nat) :
    Nat → List Nat → List Nat → Except ExecErr (List Nat × List Nat)
  | 0, a, q => .ok (a, q)
  | i + 1, a, q => do
      let ain ← getIdx a (i + n)
      let ain1 ← getIdx a (i + n - 1)
      let ain2 ← getIdx a (i + n - 2)
      let bn1 ← getIdx bArr (n - 1)
      let bn2 ← getIdx bArr (n - 2)
      -- `b[n-1] >= 0x80` after normalization, so the `u64` division below
      -- never divides by zero.
      let qa0 := min (((ain <<< 8) + ain1) / bn1) 255
      let qa1 := adjustQApprox ((bn1 <<< 8) + bn2) ((ain <<< 16) + (ain1 <<< 8) + ain2) qa0
      let (a, borrow) ← subMulLoop qa1 bArr i 0 (n + 1) a 0
      let (qa2, a) ←
        if borrow > 0 then do
          let (a, carry) ← addBackLoop bArr i 0 (n + 1) a 0
          if borrow ≠ carry then
            throw (ExecErr.fatal "underflow in bigint division")
          else
            pure (qa1 - 1, a)
        else pure (qa1, a)
      let q ←
        if i < q.length then setIdx q i qa2
        else if qa2 ≠ 0 then throw (ExecErr.bail "quotient exceeds allowed size")
        else pure q
      divMainLoop bArr n i a q

/-- `for i in 0..n { a[i] = (a[i] >> shift_bits) + ((mask & a[i + 1]) <<
(8 - shift_bits)) }`: undo the normalization shift on the remainder limbs
(fuel is the number of remaining iterations, `i` the current index). -/
def unshiftLoop (shift mask : Nat) : Nat → Nat → List Nat → Except ExecErr (List Nat)
  | _, 0, a => .ok a
  | i, cnt + 1, a => do
      let ai ← getIdx a i
      let ai1 ← getIdx a (i + 1)
      let a ← setIdx a i ((ai >>> shift) + ((mask &&& ai1) <<< (8 - shift)))
      unshiftLoop shift mask (i + 1) cnt a

/-- `MachineContext::bigint_divide`: schoolbook long division of a
`2 * WIDTH_BYTES`-limb numerator by a `WIDTH_BYTES`-limb denominator in
base 256, following the source line by line.  The working numerator buffer
`a` has `2 * WIDTH_BYTES` limbs and the loop bound is
`m = a.len() - n`. -/
def bigint_divide (a_elems b_elems : List Nat) : Except ExecErr (List Nat × List Nat) := do
  let aBuf := limbBuf (2 * WIDTH_BYTES) a_elems
  let bBuf := limbBuf (WIDTH_BYTES + 1) b_elems
  let q0 : List Nat := List.replicate WIDTH_BYTES 0
  let n := trimWidth bBuf WIDTH_BYTES
  if n = 0 then throw (ExecErr.bail "divide by zero")
  if n < 2 then throw (ExecErr.bail "denominator must be at least 9 bits")
  let m := aBuf.length - n
  let bn1 ← getIdx bBuf (n - 1)
  let shift_bits := shiftBitsLoop bn1 0 8
  let (bBuf, carryB) := shiftLimbs shift_bits 0 bBuf n
  if carryB ≠ 0 then throw (ExecErr.fatal "final carry in input shift")
  let (aBuf, carryA) := shiftLimbs shift_bits 0 aBuf (aBuf.length - 1)
  let aBuf ← setIdx aBuf (2 * WIDTH_BYTES - 1) carryA
  let (aBuf, q) ← divMainLoop bBuf n (m + 1) aBuf q0
  let mask := (1 <<< shift_bits) - 1
  let a0 ← getIdx aBuf 0
  if a0 &&& mask ≠ 0 then
    throw (ExecErr.fatal "remainder has non-zero bits to be shifted out")
  let aBuf ← unshiftLoop shift_bits mask 0 n aBuf
  let r_elems := (List.range WIDTH_BYTES).map (fun i => if i < n then aBuf.getD i 0 else 0)
  return (q, r_elems)

/-- Modelled from the spec: the numeric value of `log::LevelFilter::Trace`
in the `log` crate's ordering (Off 0, Error 1, Warn 2, Info 3, Debug 4,
Trace 5); the bridge skips formatting when the configured maximum level is
below it. -/
def LevelFilterTrace : Nat := 5

/-- Greedy `[0-9]*` of the format regex: leading digits and the rest. -/
def takeDigits : List Char → List Char × List Char
  | [] => ([], [])
  | c :: cs =>
      if c.isDigit then
        let (d, r) := takeDigits cs
        (c :: d, r)
      else ([], c :: cs)

/-- `captures.get(1).map_or(0, |x| x.as_str().parse::<usize>().unwrap_or(0))`:
the captured digits as a width, 0 when empty or when the value overflows
`usize` (`u64`). -/
def parseWidth (digits : List Char) : Nat :=
  let v := digits.foldl (fun acc c => acc * 10 + (c.toNat - 48)) 0
  if v < 2 ^ 64 then v else 0

/-- The character class `[xudw%]` of the format regex. -/
def isSpecChar (c : Char) : Bool := c = 'x' || c = 'u' || c = 'd' || c = 'w' || c = '%'

/-- Arguments consumed by one conversion: `%w` takes four, `%%` none,
`%u`/`%x`/`%d` one each. -/
def specArgCount (c : Char) : Nat := if c = 'w' then 4 else if c = '%' then 0 else 1

/-- The `next_arg` closure: the head of the remaining arguments, panicking
(`Log arg mismatch`) when they are exhausted. -/
def nextArg (args : List Nat) : Except ExecErr (Nat × List Nat) :=
  match args with
  | [] => .error (.fatal "Log arg mismatch")
  | x :: xs => .ok (x, xs)

/-- Right-align `s` in a field of `w` characters, padding with `p` (the
behavior of a Rust width specifier on numeric values). -/
def padLeft (p : Char) (w : Nat) (s : List Char) : List Char :=
  List.replicate (w - s.length) p ++ s

/-- Rust `{:x}` of a `u32` value: lowercase hexadecimal digits, most
significant first (`Nat.toDigits` uses the lowercase digit alphabet). -/
def toHexLower (n : Nat) : List Char := Nat.toDigits 16 n

/-- Rust `{:X}` of a `u32` value: the same digits uppercased. -/
def toHexUpper (n : Nat) : List Char := (Nat.toDigits 16 n).map Char.toUpper

/-- Rust `{:width$}` of `arg as i32`: the argument reinterpreted as a
two's-complement signed 32-bit value, in decimal. -/
def i32Repr (n : Nat) : List Char :=
  if n % 2 ^ 32 < 2 ^ 31 then (Nat.repr (n % 2 ^ 32)).toList
  else '-' :: (Nat.repr (2 ^ 32 - n % 2 ^ 32)).toList

/-- One conversion of the `replace_all` closure: the replacement text for
`%width c` and the remaining arguments.  `%u` is `{:width$}` decimal, `%x`
is `0x{:0(width-2)$x}`, `%d` is `{:width$}` of the argument as `i32`, `%%`
is a literal percent, and `%w` consumes four one-byte arguments rendered
as one little-endian word `0x{:08X}` (falling back to four separate
uppercase hex values when any argument exceeds a byte). -/
def applySpec (c : Char) (width : Nat) (args : List Nat) :
    Except ExecErr (List Char × List Nat) :=
  if c = 'u' then do
    let (arg, args) ← nextArg args
    .ok (padLeft ' ' width (Nat.repr arg).toList, args)
  else if c = 'x' then do
    let (arg, args) ← nextArg args
    .ok ('0' :: 'x' :: padLeft '0' (width - 2) (toHexLower arg), args)
  else if c = 'd' then do
    let (arg, args) ← nextArg args
    .ok (padLeft ' ' width (i32Repr arg), args)
  else if c = '%' then .ok (['%'], args)
  else do
    let (a0, args) ← nextArg args
    let (a1, args) ← nextArg args
    let (a2, args) ← nextArg args
    let (a3, args) ← nextArg args
    if a0 ≤ 255 ∧ a1 ≤ 255 ∧ a2 ≤ 255 ∧ a3 ≤ 255 then
      .ok ('0' :: 'x' ::
        padLeft '0' 8 (toHexUpper (a0 ||| a1 <<< 8 ||| a2 <<< 16 ||| a3 <<< 24)), args)
    else
      .ok (('0' :: 'x' :: toHexUpper a0) ++ (',' :: ' ' :: '0' :: 'x' :: toHexUpper a1) ++
        (',' :: ' ' :: '0' :: 'x' :: toHexUpper a2) ++
        (',' :: ' ' :: '0' :: 'x' :: toHexUpper a3), args)

/-- The `regex.replace_all` scan of `MachineContext::log`: finds each
non-overlapping `%([0-9]*)([xudw%])` match left to right, replaces it via
`applySpec` (consuming arguments), and copies everything else verbatim.
A `%` not followed by an optional width and a class character is ordinary
text (and no match can begin inside the skipped digits, so rescanning from
just after the `%` is equivalent to the regex scan). -/
def fmtScan : List Char → List Nat → Except ExecErr (List Char × List Nat)
  | [], args => .ok ([], args)
  | c :: cs, args =>
      if c = '%' then
        (match h : takeDigits cs with
        | (digits, c2 :: rest) =>
            if isSpecChar c2 then do
              let (piece, args1) ← applySpec c2 (parseWidth digits) args
              let (s, args2) ← fmtScan rest args1
              .ok (piece ++ s, args2)
            else do
              let (s, args1) ← fmtScan cs args
              .ok ('%' :: s, args1)
        | (_, []) => do
            let (s, args1) ← fmtScan cs args
            .ok ('%' :: s, args1))
      else do
        let (s, args1) ← fmtScan cs args
        .ok (c :: s, args1)
  termination_by cs _ => cs.length
  decreasing_by
  · have key : ∀ l : List Char, (takeDigits l).2.length ≤ l.length := by
      intro l
      induction l with
      | nil => simp [takeDigits]
      | cons c cs ih =>
          simp only [takeDigits]
          by_cases hd : c.isDigit
          · simp only [hd, if_pos]
            exact le_trans ih (Nat.le_succ _)
          · simp [hd]
    have := key cs
    rw [h] at this
    simp at this ⊢
    omega
  · simp
  · simp
  · simp [Nat.lt_succ_self]

/-- Number of arguments the format string's conversions require. -/
def argsNeeded : List Char → Nat
  | [] => 0
  | c :: cs =>
      if c = '%' then
        (match h : takeDigits cs with
        | (_, c2 :: rest) =>
            if isSpecChar c2 then specArgCount c2 + argsNeeded rest else argsNeeded cs
        | (_, []) => argsNeeded cs)
      else argsNeeded cs
  termination_by cs => cs.length
  decreasing_by
  · have key : ∀ l : List Char, (takeDigits l).2.length ≤ l.length := by
      intro l
      induction l with
      | nil => simp [takeDigits]
      | cons c cs ih =>
          simp only [takeDigits]
          by_cases hd : c.isDigit
          · simp only [hd, if_pos]
            exact le_trans ih (Nat.le_succ _)
          · simp [hd]
    have := key cs
    rw [h] at this
    simp at this ⊢
    omega
  · simp
  · simp
  · simp [Nat.lt_succ_self]

/-- `MachineContext::log`: skips formatting entirely (consuming no
arguments, hence never failing) when the configured verbosity is below
trace level; otherwise formats the C-style message against the argument
list, panicking when the arguments run short (`Log arg mismatch`) or are
left over (`Args missing formatting`).  Returns `none` when skipped and
the formatted text when it ran. -/
def logCall (max_level : Nat) (msg : String) (args : List Nat) :
    Except ExecErr (Option String) :=
  if max_level < LevelFilterTrace then .ok none
  else do
    let (formatted, args_left) ← fmtScan msg.toList args
    if args_left.length = 0 then .ok (some (String.mk formatted))
    else .error (.fatal "Args missing formatting")

/-- The named extern requests of the `CircuitStepHandler::call` dispatch,
with each request's arguments.  The four plonk-table requests
(`plonkRead`/`plonkWrite`/`plonkReadAccum`/`plonkWriteAccum`) mutate only
the permutation tables and accumulators inside `MemoryState`, which no
claim concerns and which are outside the modelled state, so they are not
part of the modelled operation set. -/
inductive BridgeOp where
  | halt (exit_code pc : Nat)
  | traceCall
  | getMajor (pc : Nat)
  | getMinor (insn : Nat × Nat × Nat × Nat)
  | divide (numer denom : Nat × Nat × Nat × Nat) (sign : Nat)
  | bigintDivide (a b : List Nat)
  | pageInfo
  | ramWrite (addr : Nat) (data : Nat × Nat × Nat × Nat) (op : Nat)
  | ramRead (addr op : Nat)
  | logMsg (msg : String) (args : List Nat)
  | syscallInit
  | syscallBody
  | syscallFini

/-- One `CircuitStepHandler::call` dispatch step on the bridge state,
parametric in `OpCode::decode` and the configured logging verbosity.
Output values are dropped; only the state transition is kept. -/
def callStep (decode : Nat → Nat → Except ExecErr OpCode) (max_level : Nat)
    (s : MachineContext) : BridgeOp → Except ExecErr MachineContext
  | .halt exit_code pc => halt s exit_code pc
  | .traceCall => .ok s
  | .getMajor pc => do
      let (_, s') ← get_major decode s pc
      .ok s'
  | .getMinor insn => do
      let _ ← decode (merge_word8 insn) 0
      .ok s
  | .divide _ _ _ => .ok s
  | .bigintDivide a b => do
      let _ ← bigint_divide a b
      .ok s
  | .pageInfo => .ok (page_info s).2
  | .ramWrite addr data op => ram_write s addr data op
  | .ramRead addr op => do
      let (_, s') ← ram_read s addr op
      .ok s'
  | .logMsg msg args => do
      let _ ← logCall max_level msg args
      .ok s
  | .syscallInit => .ok s
  | .syscallBody => do
      let (_, s') ← syscall_body s
      .ok s'
  | .syscallFini => do
      let (_, s') ← syscall_fini s
      .ok s'

/-- A sequence of bridge requests executed in cycle order. -/
def runOps (decode : Nat → Nat → Except ExecErr OpCode) (max_level : Nat)
    (s : MachineContext) (ops : List BridgeOp) : Except ExecErr MachineContext :=
  ops.foldlM (callStep decode max_level) s

/-- A single RAM access of the trace: the word address, the op kind, and
for writes the data limbs. -/
inductive MemAccess where
  | read (addr op : Nat)
  | write (addr : Nat) (data : Nat × Nat × Nat × Nat) (op : Nat)

/-- The word address of an access. -/
def MemAccess.addr : MemAccess → Nat
  | .read a _ => a
  | .write a _ _ => a

/-- Whether the access is tagged with the paging op kind (`PageIo`). -/
def MemAccess.isPageIo : MemAccess → Bool
  | .read _ op => op = MemoryOp.pageIo.as_u32
  | .write _ _ op => op = MemoryOp.pageIo.as_u32

/-- One RAM access on the bridge state via `ram_read` / `ram_write`. -/
def memStep (s : MachineContext) : MemAccess → Except ExecErr MachineContext
  | .read addr op => do
      let (_, s') ← ram_read s addr op
      .ok s'
  | .write addr data op => ram_write s addr data op

/-- A RAM access trace executed in cycle order. -/
def runAccesses (s : MachineContext) (tr : List MemAccess) :
    Except ExecErr MachineContext :=
  tr.foldlM memStep s

/-- The two's-complement signed value denoted by a `u32` bit pattern. -/
def toInt32 (x : Nat) : Int := if x < 2 ^ 31 then (x : Int) else (x : Int) - 2 ^ 32

/-- The `u32` bit pattern of an integer, wrapping modulo `2^32`. -/
def wrap32 (i : Int) : Nat := (i % 2 ^ 32).toNat

/-- Native unsigned 32-bit division/remainder semantics (RISC-V
`DIVU`/`REMU`): quotient all-ones and remainder the numerator on divide by
zero, truncating division otherwise.  Stated from the spec for comparison
with `divideWords` in sign mode 0. -/
def divuSpec (n d : Nat) : Nat × Nat :=
  if d = 0 then (0xffffffff, n) else (n / d, n % d)

/-- Native two's-complement signed 32-bit division/remainder semantics
(RISC-V `DIV`/`REM`): truncating (toward-zero) quotient and remainder of
the signed values, wrapped to 32 bits (which also yields the `DIV`
overflow convention for `INT_MIN / -1`); quotient all-ones and remainder
the numerator on divide by zero.  Stated from the spec for comparison with
`divideWords` in sign mode 1. -/
def divsSpec (n d : Nat) : Nat × Nat :=
  let ni := toInt32 n
  let di := toInt32 d
  if di = 0 then (0xffffffff, n)
  else (wrap32 (Int.tdiv ni di), wrap32 (Int.tmod ni di))

/-- A bridge state with empty queues, zeroed memory and cleared flags,
used as the base of the concrete examples. -/
def baseState : MachineContext where
  buf := fun _ => 0
  faults := ⟨∅, ∅⟩
  syscall_out_data := []
  syscall_out_regs := []
  is_halted := false
  is_flushing := false
  resident_words := ∅
  exit_code := ExitCode.terminate
  insn_counter := 0

/-- Outputs of `k` successive `page_info` calls from a given state. -/
def pageInfoSeq : Nat → MachineContext → List (Nat × Nat × Nat)
  | 0, _ => []
  | k + 1, s =>
      let (out, s') := page_info s
      out :: pageInfoSeq k s'

/-- Flushing state with read faults for pages 3, 1, 4 and write faults for
pages 2, 5 (the concrete example of the page-fault draining claim). -/
def stateC4 : MachineContext :=
  { baseState with faults := ⟨{3, 1, 4}, {2, 5}⟩, is_flushing := true }

/-- Flushing state with drained fault queues. -/
def stateC4done : MachineContext := { baseState with is_flushing := true }

/-- Already-halted state (cleared flushing flag). -/
def stateC10 : MachineContext := { baseState with is_halted := true }

/-- Concrete numerator for the bigint round-trip example: the value 1 in
`2 * WIDTH_BYTES` base-256 limbs. -/
def aInputC1 : List Nat := 1 :: List.replicate 63 0

/-- Concrete denominator for the bigint round-trip example: the value 256
(exactly 9 bits wide) in `WIDTH_BYTES` base-256 limbs. -/
def bInputC1 : List Nat := 0 :: 1 :: List.replicate 30 0

/-- Concrete numerator `256 ^ 62` whose quotient by 256 is `256 ^ 61`,
far wider than `WIDTH_BYTES` limbs (the quotient-overflow case). -/
def aInputC6 : List Nat := List.replicate 62 0 ++ [1, 0]

/-- Concrete denominator 256 for the quotient-overflow case. -/
def bInputC6 : List Nat := 0 :: 1 :: List.replicate 30 0

/-- All-zero denominator (the divide-by-zero case). -/
def bZeroC6 : List Nat := List.replicate 32 0

/-- Denominator 5, narrower than 9 bits (the unsupported-width case). -/
def bNarrowC6 : List Nat := 5 :: List.replicate 31 0

/-- The integer a little-endian base-256 limb list denotes. -/
def limbsVal (l : List Nat) : Nat := l.foldr (fun x acc => x + 256 * acc) 0

/-- A two-access trace: page in word 5, then read it non-paging. -/
def traceC5 : List MemAccess :=
  [MemAccess.read 5 MemoryOp.pageIo.as_u32, MemAccess.read 5 MemoryOp.read.as_u32]

/-- A trivial decode: every word decodes to an abstract non-ECall major. -/
def decodeTriv : Nat → Nat → Except ExecErr OpCode :=
  fun _ _ => .ok ⟨MajorType.other 7, 0⟩

/-- Flushing, not-yet-halted state for the monotonicity example. -/
def stateC8 : MachineContext := { baseState with is_flushing := true }

/-- The request sequence of the monotonicity example: a terminating halt
followed by a page-info poll and a syscall-body replay. -/
def opsC8 : List BridgeOp := [BridgeOp.halt haltTERMINATE 0, BridgeOp.pageInfo,
  BridgeOp.syscallBody]

/-- The state the monotonicity example ends in. -/
def stateC8fin : MachineContext :=
  { baseState with is_flushing := true, is_halted := true }

/-- State with an unserviced read fault for page 2 (the major-type gating
example). -/
def stateC3 : MachineContext := { baseState with faults := ⟨{2}, ∅⟩ }

/-! ## Theorems -/

/-- Claim C10: for every bridge state in which `is_halted` is already
true, a further `halt` request leaves the entire state unchanged — in
particular a second halt with exit code `PAUSE` does not set
`is_flushing`. -/
theorem c10_halt_when_halted_noop (s : MachineContext) (exit_code pc : Nat)
    (h : s.is_halted = true) : halt s exit_code pc = .ok s := by
  simp [halt, h]

/-- Witness for C10: a second `halt` with exit code `PAUSE` on a halted,
non-flushing state returns the state unchanged (so `is_flushing` stays
false). -/
theorem c10_halt_when_halted_noop_witness :
    halt stateC10 haltPAUSE 0 = .ok stateC10 ∧ stateC10.is_flushing = false :=
  ⟨c10_halt_when_halted_noop stateC10 haltPAUSE 0 rfl, rfl⟩

/-- Claim C9 counterexample: with the syscall replay data queue exhausted,
`syscall_body` returns `Ok 0` — a silently defaulted value, not a returned
error as the claim states. -/
theorem c9_counterexample_body_defaults :
    syscall_body baseState = .ok (0, baseState) ∧ baseState.syscall_out_data = [] :=
  ⟨rfl, rfl⟩

/-- Claim C9 (amended): when the syscall replay queues are exhausted, a
further `syscall_fini` request is reported as a recoverable error with a
descriptive cause, while a further `syscall_body` request silently returns
the defaulted value 0. -/
theorem c9_syscall_queue_exhaustion (s : MachineContext) :
    (s.syscall_out_regs = [] →
      syscall_fini s = .error (.bail "Invalid syscall records"))
    ∧ (s.syscall_out_data = [] → syscall_body s = .ok (0, s)) := by
  constructor
  · intro h
    simp [syscall_fini, h]
  · intro h
    simp [syscall_body, h]

/-- Witness for C9: on a state with both replay queues empty,
`syscall_fini` errors and `syscall_body` returns the default. -/
theorem c9_syscall_queue_exhaustion_witness :
    syscall_fini baseState = .error (.bail "Invalid syscall records")
    ∧ syscall_body baseState = .ok (0, baseState) :=
  ⟨(c9_syscall_queue_exhaustion baseState).1 rfl,
    (c9_syscall_queue_exhaustion baseState).2 rfl⟩

/-- Claim C4: successive `page_info` calls drain the read-fault queue
highest page first, each returning `(1, page, 0)`; only once the read
queue is empty and only while flushing do they drain the write-fault
queue lowest page first, each returning `(0, page, 0)`; when nothing
remains to drain they return `(0, 0, 1)` and leave the state unchanged.
With read faults `{3, 1, 4}` and write faults `{2, 5}` while flushing,
six successive calls yield reads 4, 3, 1, then writes 2, 5, then
`(0, 0, 1)`. -/
theorem c4_page_info_drain :
    (∀ (s : MachineContext) (h : s.faults.reads.Nonempty),
      page_info s =
        ((1, s.faults.reads.max' h, 0),
          { s with faults :=
            { s.faults with reads := s.faults.reads.erase (s.faults.reads.max' h) } }))
    ∧ (∀ (s : MachineContext) (h : s.faults.writes.Nonempty),
        s.faults.reads = ∅ → s.is_flushing = true →
        page_info s =
          ((0, s.faults.writes.min' h, 0),
            { s with faults :=
              { s.faults with writes := s.faults.writes.erase (s.faults.writes.min' h) } }))
    ∧ (∀ s : MachineContext, s.faults.reads = ∅ →
        s.is_flushing = false ∨ s.faults.writes = ∅ →
        page_info s = ((0, 0, 1), s))
    ∧ pageInfoSeq 6 stateC4 =
        [(1, 4, 0), (1, 3, 0), (1, 1, 0), (0, 2, 0), (0, 5, 0), (0, 0, 1)] := by
  refine ⟨?_, ?_, ?_, ?_⟩
  · intro s h
    unfold page_info
    rw [dif_pos h]
  · intro s h hre hfl
    unfold page_info
    rw [dif_neg (by rw [hre]; exact Finset.not_nonempty_empty), hfl]
    simp only [if_true]
    rw [dif_pos h]
  · intro s hre hd
    unfold page_info
    rw [dif_neg (by rw [hre]; exact Finset.not_nonempty_empty)]
    rcases hd with hfl | hwr
    · rw [hfl]
      simp
    · rw [dif_neg (by rw [hwr]; exact Finset.not_nonempty_empty)]
      split <;> rfl
  · decide

/-- Witness for C4: a flushing state with both fault queues drained
reports `(0, 0, 1)` and is left unchanged. -/
theorem c4_page_info_drain_witness :
    page_info stateC4done = ((0, 0, 1), stateC4done) :=
  c4_page_info_drain.2.2.1 stateC4done rfl (Or.inr rfl)

/-- Claim C1 (failing input): on the valid input `a = 1`
(`2 * WIDTH_BYTES` limbs) and `b = 256` (nonzero, exactly 9 bits wide, so
its trimmed width is 2 and both domain checks pass), `bigint_divide` does
not return `Ok(q, r)` with `a = q * b + r`: it panics with an
out-of-bounds index.  The quotient-digit loop runs `i` from
`m = a.len() - n` down to 0 and its first iteration reads `a[i + n] =
a[2 * WIDTH_BYTES]`, one past the end of the `2 * WIDTH_BYTES`-limb
working buffer, on every input whose trimmed denominator width is at
least 2. -/
theorem c1_bigint_divide_out_of_bounds :
    bigint_divide aInputC1 bInputC1 = .error (.fatal "index out of bounds")
    ∧ limbsVal aInputC1 = 1 ∧ limbsVal bInputC1 = 256
    ∧ trimWidth (limbBuf (WIDTH_BYTES + 1) bInputC1) WIDTH_BYTES = 2 := by
  refine ⟨by rfl, by rfl, by rfl, by rfl⟩

/-- Claim C6 (failing input): the two domain checks that precede the main
loop do produce recoverable errors — an all-zero denominator bails with
`divide by zero` and a denominator narrower than 9 bits bails with the
documented unsupported-width message — but the third documented
recoverable case never occurs: on `a = 256 ^ 62`, `b = 256` (whose true
quotient `256 ^ 61` exceeds the fixed `WIDTH_BYTES`-limb output width and
per the claim should be reported as a recoverable quotient-overflow
error), `bigint_divide` instead panics with an out-of-bounds index before
the quotient-size check can run. -/
theorem c6_bigint_divide_error_cases :
    bigint_divide aInputC6 bZeroC6 = .error (.bail "divide by zero")
    ∧ bigint_divide aInputC6 bNarrowC6 =
        .error (.bail "denominator must be at least 9 bits")
    ∧ bigint_divide aInputC6 bInputC6 = .error (.fatal "index out of bounds") := by
  refine ⟨by rfl, by rfl, by rfl⟩

/-- A paging access, or a non-paging access to a resident address,
succeeds; the result's resident set is the old one with the address
inserted for a paging access and unchanged otherwise, and the other
bridge-state fields except the memory buffer are unchanged. -/
theorem memStep_ok_of (s : MachineContext) (acc : MemAccess)
    (h : acc.isPageIo = true ∨ acc.addr ∈ s.resident_words) :
    ∃ s', memStep s acc = .ok s' ∧
      s'.resident_words =
        (if acc.isPageIo then insert acc.addr s.resident_words else s.resident_words) := by
  have halign : ∀ a : Nat, (a * WORD_SIZE) % WORD_SIZE = 0 := fun a => Nat.mul_mod_left a _
  cases acc with
  | read addr op =>
      simp only [MemAccess.isPageIo, MemAccess.addr] at h ⊢
      by_cases hop : op = MemoryOp.pageIo.as_u32
      · simp only [memStep, ram_read, if_pos hop, load_u32, if_pos (halign addr)]
        exact ⟨_, rfl, by simp [hop]⟩
      · have hres : addr ∈ s.resident_words := by
          rcases h with h | h
          · exact absurd (by simpa using h) hop
          · exact h
        simp only [memStep, ram_read, if_neg hop, if_pos hres, load_u32,
          if_pos (halign addr)]
        exact ⟨_, rfl, by simp [hop]⟩
  | write addr data op =>
      simp only [MemAccess.isPageIo, MemAccess.addr] at h ⊢
      by_cases hop : op = MemoryOp.pageIo.as_u32
      · simp only [memStep, ram_write, if_pos hop, store_u32, if_pos (halign addr)]
        exact ⟨_, rfl, by simp [hop, storeU8]⟩
      · have hres : addr ∈ s.resident_words := by
          rcases h with h | h
          · exact absurd (by simpa using h) hop
          · exact h
        simp only [memStep, ram_write, if_neg hop, if_pos hres, store_u32,
          if_pos (halign addr)]
        exact ⟨_, rfl, by simp [hop, storeU8]⟩

/-- A trace in which every non-paging access is to an address that is
already resident or was paged in earlier in the trace runs without a
residency fault. -/
theorem runAccesses_ok_of (tr : List MemAccess) :
    ∀ s : MachineContext,
      (∀ i (hi : i < tr.length), (tr.get ⟨i, hi⟩).isPageIo = false →
        (tr.get ⟨i, hi⟩).addr ∈ s.resident_words ∨
        ∃ j, ∃ hj : j < tr.length, j < i ∧ (tr.get ⟨j, hj⟩).isPageIo = true ∧
          (tr.get ⟨j, hj⟩).addr = (tr.get ⟨i, hi⟩).addr) →
      ∃ s', runAccesses s tr = .ok s' := by
  induction tr with
  | nil => exact fun s _ => ⟨s, rfl⟩
  | cons acc rest ih =>
      intro s hpre
      have hhead : acc.isPageIo = true ∨ acc.addr ∈ s.resident_words := by
        by_cases hp : acc.isPageIo = true
        · exact Or.inl hp
        · have := hpre 0 (by simp) (by simpa using hp)
          rcases this with hres | ⟨j, hj, hlt, _⟩
          · exact Or.inr (by simpa using hres)
          · omega
      obtain ⟨s1, hstep, hres⟩ := memStep_ok_of s acc hhead
      have hmono : s.resident_words ⊆ s1.resident_words := by
        rw [hres]
        split
        · exact Finset.subset_insert _ _
        · exact Finset.Subset.refl _
      obtain ⟨s', hrun⟩ := ih s1 (by
        intro i hi hnp
        have := hpre (i + 1) (by simpa using Nat.succ_lt_succ hi) (by simpa using hnp)
        rcases this with hres0 | ⟨j, hj, hlt, hio, haddr⟩
        · exact Or.inl (hmono (by simpa using hres0))
        · match j, hj with
          | 0, _ =>
              left
              simp at hio haddr
              rw [hres, hio]
              simp [List.get_eq_getElem, ← haddr]
          | j' + 1, hj =>
              right
              refine ⟨j', by simpa using Nat.lt_of_succ_lt_succ hj, by omega, ?_, ?_⟩
              · simpa using hio
              · simpa using haddr)
      refine ⟨s', ?_⟩
      simpa [runAccesses, hstep] using hrun

/-- Claim C5: a `ram_read`/`ram_write` with the paging op kind succeeds
and marks its word address resident; a non-paging access on an address
not previously marked resident is a fatal error; and any access trace in
which every non-paging access is preceded by a paging access to the same
word address runs without hitting the fatal residency branch. -/
theorem c5_residency_gate :
    (∀ (s : MachineContext) (acc : MemAccess), acc.isPageIo = true →
      ∃ s', memStep s acc = .ok s' ∧ acc.addr ∈ s'.resident_words)
    ∧ (∀ (s : MachineContext) (acc : MemAccess), acc.isPageIo = false →
        acc.addr ∉ s.resident_words →
        ∃ msg, memStep s acc = .error (.fatal msg))
    ∧ (∀ (tr : List MemAccess) (s : MachineContext),
        (∀ i (hi : i < tr.length), (tr.get ⟨i, hi⟩).isPageIo = false →
          ∃ j, ∃ hj : j < tr.length, j < i ∧ (tr.get ⟨j, hj⟩).isPageIo = true ∧
            (tr.get ⟨j, hj⟩).addr = (tr.get ⟨i, hi⟩).addr) →
        ∃ s', runAccesses s tr = .ok s') := by
  refine ⟨?_, ?_, ?_⟩
  · intro s acc hp
    obtain ⟨s', hstep, hres⟩ := memStep_ok_of s acc (Or.inl hp)
    refine ⟨s', hstep, ?_⟩
    rw [hres, if_pos hp]
    exact Finset.mem_insert_self _ _
  · intro s acc hp hnres
    cases acc with
    | read addr op =>
        simp only [MemAccess.isPageIo, decide_eq_true_iff] at hp
        simp only [MemAccess.addr] at hnres
        refine ⟨"Memory read before page in", ?_⟩
        simp only [memStep, ram_read]
        rw [if_neg (by simpa using hp), if_neg hnres]
        rfl
    | write addr data op =>
        simp only [MemAccess.isPageIo, decide_eq_true_iff] at hp
        simp only [MemAccess.addr] at hnres
        refine ⟨"Memory write before page in", ?_⟩
        simp only [memStep, ram_write]
        rw [if_neg (by simpa using hp), if_neg hnres]
  · intro tr s hpre
    exact runAccesses_ok_of tr s (fun i hi hnp => Or.inr (hpre i hi hnp))

/-- Witness for C5: the concrete trace that pages word 5 in and then
reads it with a non-paging access satisfies the precedence precondition
and runs without a fault. -/
theorem c5_residency_gate_witness : ∃ s', runAccesses baseState traceC5 = .ok s' := by
  apply c5_residency_gate.2.2 traceC5 baseState
  intro i hi hnp
  match i, hi with
  | 0, _ => simp [traceC5, MemAccess.isPageIo] at hnp
  | 1, _ =>
      refine ⟨0, by simp [traceC5], by omega, ?_, ?_⟩
      · simp [traceC5, MemAccess.isPageIo, MemoryOp.as_u32]
      · simp [traceC5, MemAccess.addr]

/-- Bind of a successful `Except` computation reduces to the
continuation. -/
theorem bind_ok_red {α β : Type} (a : α) (f : α → Except ExecErr β) :
    (Except.ok a : Except ExecErr α) >>= f = f a := rfl

/-- Bind of a failed `Except` computation propagates the error. -/
theorem bind_err_red {α β : Type} (e : ExecErr) (f : α → Except ExecErr β) :
    (Except.error e : Except ExecErr α) >>= f = Except.error e := rfl

/-- The ECALL-HALT-PAUSE bookkeeping either leaves the state unchanged or
only sets `is_flushing`. -/
theorem ecallFlushUpdate_cases (s : MachineContext) (opc : OpCode) :
    ecallFlushUpdate s opc = .ok s ∨
    ecallFlushUpdate s opc = .ok { s with is_flushing := true } := by
  unfold ecallFlushUpdate
  by_cases hmaj : opc.major = MajorType.eCall
  · rw [if_pos hmaj]
    have h1 : get_register_addr REG_T0 % WORD_SIZE = 0 := by decide
    have h2 : get_register_addr REG_A0 % WORD_SIZE = 0 := by decide
    simp only [load_register, load_u32, if_pos h1, if_pos h2, bind_ok_red]
    by_cases hm : loadWord s (get_register_addr REG_T0) = ecallHALT
    · rw [if_pos hm]
      by_cases hp : loadWord s (get_register_addr REG_A0) = haltPAUSE
      · rw [if_pos hp]
        right
        rfl
      · rw [if_neg hp]
        left
        rfl
    · rw [if_neg hm]
      left
      rfl
  · rw [if_neg hmaj]
    left
    rfl

/-- The forced `SystemSplit` flush either leaves the state unchanged or
only sets `is_flushing`. -/
theorem splitFlushUpdate_cases (s : MachineContext) :
    splitFlushUpdate s = s ∨ splitFlushUpdate s = { s with is_flushing := true } := by
  unfold splitFlushUpdate
  split
  · split_ifs
    · right; rfl
    · left; rfl
    · left; rfl
  · left; rfl

/-- A successful `get_major` call preserves `is_halted`, can only set
`is_flushing`, and never decreases the instruction counter. -/
theorem get_major_mono (decode : Nat → Nat → Except ExecErr OpCode)
    (s : MachineContext) (pc : Nat) (r : MajorType) (s' : MachineContext)
    (h : get_major decode s pc = .ok (r, s')) :
    s'.is_halted = s.is_halted ∧ (s.is_flushing = true → s'.is_flushing = true)
    ∧ s.insn_counter ≤ s'.insn_counter := by
  unfold get_major at h
  rcases hl : load_u32 s pc with e | insn
  · rw [hl, bind_err_red] at h
    exact absurd h (by simp)
  rw [hl, bind_ok_red] at h
  rcases hd : decode insn pc with e | opc
  · rw [hd, bind_err_red] at h
    exact absurd h (by simp)
  rw [hd, bind_ok_red] at h
  have hfields : ∀ t : MachineContext, t.is_halted = s.is_halted →
      (s.is_flushing = true → t.is_flushing = true) → t.insn_counter = s.insn_counter →
      (if (splitFlushUpdate t).faults.reads.Nonempty then
          pure (MajorType.pageFault, splitFlushUpdate t)
        else if (splitFlushUpdate t).is_flushing then
          pure (MajorType.pageFault, splitFlushUpdate t)
        else pure (opc.major,
          { splitFlushUpdate t with insn_counter := (splitFlushUpdate t).insn_counter + 1 })
        : Except ExecErr (MajorType × MachineContext)) = .ok (r, s') →
      s'.is_halted = s.is_halted ∧ (s.is_flushing = true → s'.is_flushing = true)
      ∧ s.insn_counter ≤ s'.insn_counter := by
    intro t hh hf hc hrun
    have hsp := splitFlushUpdate_cases t
    rcases hsp with hsp | hsp <;>
      rw [hsp] at hrun <;>
      split_ifs at hrun <;>
      simp only [pure, Except.pure, Except.ok.injEq, Prod.mk.injEq] at hrun <;>
      rcases hrun with ⟨_, hs'⟩ <;>
      subst hs' <;>
      simp_all <;>
      omega
  rcases ecallFlushUpdate_cases s opc with he | he <;> rw [he, bind_ok_red] at h
  · exact hfields s rfl (fun hf => hf) rfl h
  · exact hfields { s with is_flushing := true } rfl (fun _ => rfl) rfl h

/-- `page_info` changes only the fault queues: the flags and the
instruction counter are untouched. -/
theorem page_info_fields (s : MachineContext) :
    ((page_info s).2).is_halted = s.is_halted
    ∧ ((page_info s).2).is_flushing = s.is_flushing
    ∧ ((page_info s).2).insn_counter = s.insn_counter := by
  unfold page_info
  split
  · exact ⟨rfl, rfl, rfl⟩
  · split
    · split
      · exact ⟨rfl, rfl, rfl⟩
      · exact ⟨rfl, rfl, rfl⟩
    · exact ⟨rfl, rfl, rfl⟩

/-- A successful `halt` call can only set the two flags, and leaves the
instruction counter unchanged. -/
theorem halt_mono (s : MachineContext) (exit_code pc : Nat) (s' : MachineContext)
    (h : halt s exit_code pc = .ok s') :
    (s.is_halted = true → s'.is_halted = true)
    ∧ (s.is_flushing = true → s'.is_flushing = true)
    ∧ s.insn_counter ≤ s'.insn_counter := by
  unfold halt at h
  split_ifs at h <;> simp only [Except.ok.injEq] at h <;> subst h <;> simp_all

/-- A successful `ram_read` changes neither flag nor the counter. -/
theorem ram_read_fields (s : MachineContext) (addr op : Nat) (out : Nat × Nat × Nat × Nat)
    (s' : MachineContext) (h : ram_read s addr op = .ok (out, s')) :
    s'.is_halted = s.is_halted ∧ s'.is_flushing = s.is_flushing
    ∧ s'.insn_counter = s.insn_counter := by
  have halign : (addr * WORD_SIZE) % WORD_SIZE = 0 := Nat.mul_mod_left addr _
  unfold ram_read at h
  split_ifs at h
  · simp only [load_u32, if_pos halign, bind_ok_red, pure, Except.pure,
      Except.ok.injEq, Prod.mk.injEq] at h
    rcases h with ⟨_, hs'⟩
    subst hs'
    exact ⟨rfl, rfl, rfl⟩
  · simp only [load_u32, if_pos halign, bind_ok_red, pure, Except.pure,
      Except.ok.injEq, Prod.mk.injEq] at h
    rcases h with ⟨_, hs'⟩
    subst hs'
    exact ⟨rfl, rfl, rfl⟩

/-- A successful `ram_write` changes neither flag nor the counter. -/
theorem ram_write_fields (s : MachineContext) (addr : Nat) (data : Nat × Nat × Nat × Nat)
    (op : Nat) (s' : MachineContext) (h : ram_write s addr data op = .ok s') :
    s'.is_halted = s.is_halted ∧ s'.is_flushing = s.is_flushing
    ∧ s'.insn_counter = s.insn_counter := by
  have halign : (addr * WORD_SIZE) % WORD_SIZE = 0 := Nat.mul_mod_left addr _
  unfold ram_write at h
  split_ifs at h <;>
    simp only [store_u32, if_pos halign, Except.ok.injEq] at h <;>
    subst h <;>
    exact ⟨rfl, rfl, rfl⟩

/-- Claim C8 per-op lemma: every bridge request, when it succeeds, keeps
`is_halted` and `is_flushing` monotone and never decreases
`insn_counter`. -/
theorem callStep_mono (decode : Nat → Nat → Except ExecErr OpCode) (max_level : Nat)
    (s : MachineContext) (op : BridgeOp) (s' : MachineContext)
    (h : callStep decode max_level s op = .ok s') :
    (s.is_halted = true → s'.is_halted = true)
    ∧ (s.is_flushing = true → s'.is_flushing = true)
    ∧ s.insn_counter ≤ s'.insn_counter := by
  cases op with
  | halt exit_code pc => exact halt_mono s exit_code pc s' h
  | traceCall =>
      simp only [callStep, Except.ok.injEq] at h
      subst h
      exact ⟨fun hf => hf, fun hf => hf, le_refl _⟩
  | getMajor pc =>
      simp only [callStep] at h
      rcases hg : get_major decode s pc with e | p
      · rw [hg, bind_err_red] at h
        exact absurd h (by simp)
      · rw [hg, bind_ok_red] at h
        simp only [Except.ok.injEq] at h
        obtain ⟨r0, s0⟩ := p
        obtain ⟨h1, h2, h3⟩ := get_major_mono decode s pc r0 s0 hg
        subst h
        exact ⟨fun hf => by rw [h1]; exact hf, h2, h3⟩
  | getMinor insn =>
      simp only [callStep] at h
      rcases hd : decode (merge_word8 insn) 0 with e | opc
      · rw [hd, bind_err_red] at h
        exact absurd h (by simp)
      · rw [hd, bind_ok_red] at h
        simp only [Except.ok.injEq] at h
        subst h
        exact ⟨fun hf => hf, fun hf => hf, le_refl _⟩
  | divide numer denom sign =>
      simp only [callStep, Except.ok.injEq] at h
      subst h
      exact ⟨fun hf => hf, fun hf => hf, le_refl _⟩
  | bigintDivide a b =>
      simp only [callStep] at h
      rcases hd : bigint_divide a b with e | qr
      · rw [hd, bind_err_red] at h
        exact absurd h (by simp)
      · rw [hd, bind_ok_red] at h
        simp only [Except.ok.injEq] at h
        subst h
        exact ⟨fun hf => hf, fun hf => hf, le_refl _⟩
  | pageInfo =>
      simp only [callStep, Except.ok.injEq] at h
      subst h
      obtain ⟨h1, h2, h3⟩ := page_info_fields s
      exact ⟨fun hf => by rw [h1]; exact hf, fun hf => by rw [h2]; exact hf, le_of_eq h3.symm⟩
  | ramWrite addr data op =>
      simp only [callStep] at h
      obtain ⟨h1, h2, h3⟩ := ram_write_fields s addr data op s' h
      exact ⟨fun hf => by rw [h1]; exact hf, fun hf => by rw [h2]; exact hf, le_of_eq h3.symm⟩
  | ramRead addr op =>
      simp only [callStep] at h
      rcases hr : ram_read s addr op with e | p
      · rw [hr, bind_err_red] at h
        exact absurd h (by simp)
      · rw [hr, bind_ok_red] at h
        simp only [Except.ok.injEq] at h
        obtain ⟨out0, s0⟩ := p
        obtain ⟨h1, h2, h3⟩ := ram_read_fields s addr op out0 s0 hr
        subst h
        exact ⟨fun hf => by rw [h1]; exact hf, fun hf => by rw [h2]; exact hf,
          le_of_eq h3.symm⟩
  | logMsg msg args =>
      simp only [callStep] at h
      rcases hl : logCall max_level msg args with e | m
      · rw [hl, bind_err_red] at h
        exact absurd h (by simp)
      · rw [hl, bind_ok_red] at h
        simp only [Except.ok.injEq] at h
        subst h
        exact ⟨fun hf => hf, fun hf => hf, le_refl _⟩
  | syscallInit =>
      simp only [callStep, Except.ok.injEq] at h
      subst h
      exact ⟨fun hf => hf, fun hf => hf, le_refl _⟩
  | syscallBody =>
      simp only [callStep, syscall_body] at h
      rcases hq : s.syscall_out_data with _ | ⟨x, rest⟩ <;>
        rw [hq] at h <;>
        rw [bind_ok_red] at h <;>
        simp only [Except.ok.injEq] at h <;>
        subst h
      · exact ⟨fun hf => hf, fun hf => hf, le_refl _⟩
      · exact ⟨fun hf => hf, fun hf => hf, le_refl _⟩
  | syscallFini =>
      simp only [callStep, syscall_fini] at h
      rcases hq : s.syscall_out_regs with _ | ⟨x, rest⟩ <;> rw [hq] at h
      · rw [bind_err_red] at h
        exact absurd h (by simp)
      · rw [bind_ok_red] at h
        simp only [Except.ok.injEq] at h
        subst h
        exact ⟨fun hf => hf, fun hf => hf, le_refl _⟩

/-- Claim C8: over any successfully executed sequence of bridge requests
within one segment, `is_halted` and `is_flushing` are monotone — once
true they are never reset — and `insn_counter` never decreases. -/
theorem c8_flags_counter_monotone (decode : Nat → Nat → Except ExecErr OpCode)
    (max_level : Nat) (ops : List BridgeOp) :
    ∀ (s s' : MachineContext), runOps decode max_level s ops = .ok s' →
      (s.is_halted = true → s'.is_halted = true)
      ∧ (s.is_flushing = true → s'.is_flushing = true)
      ∧ s.insn_counter ≤ s'.insn_counter := by
  induction ops with
  | nil =>
      intro s s' h
      simp only [runOps, List.foldlM, pure, Except.pure, Except.ok.injEq] at h
      subst h
      exact ⟨fun hf => hf, fun hf => hf, le_refl _⟩
  | cons op rest ih =>
      intro s s' h
      simp only [runOps, List.foldlM] at h
      rcases hstep : callStep decode max_level s op with e | s1
      · rw [hstep, bind_err_red] at h
        exact absurd h (by simp)
      · rw [hstep, bind_ok_red] at h
        obtain ⟨h1, h2, h3⟩ := callStep_mono decode max_level s op s1 hstep
        obtain ⟨g1, g2, g3⟩ := ih s1 s' h
        exact ⟨fun hf => g1 (h1 hf), fun hf => g2 (h2 hf), le_trans h3 g3⟩

/-- Witness for C8: running a terminating halt, a page-info poll and a
syscall replay from a flushing state keeps the flushing flag set and
does not decrease the counter. -/
theorem c8_flags_counter_monotone_witness :
    stateC8fin.is_flushing = true ∧ stateC8.insn_counter ≤ stateC8fin.insn_counter := by
  have h := c8_flags_counter_monotone decodeTriv 0 opsC8 stateC8 stateC8fin rfl
  exact ⟨h.2.1 rfl, h.2.2⟩

/-- Claim C3: when the instruction at `pc` decodes, `get_major` succeeds;
whenever the read-fault queue is non-empty or `is_flushing` is already
true it returns the `PageFault` major class — regardless of the decoded
opcode — and leaves `insn_counter` unchanged; and when the read-fault
queue is empty and the flushing flag is false after the cycle's
ECALL-PAUSE / `SystemSplit` bookkeeping (the state in which the gate is
evaluated), it returns the decoded instruction's true major class and
increments `insn_counter`.  Since a counter increment is impossible in
the first case, the counter advances only when neither condition held. -/
theorem c3_get_major_pagefault_gating
    (decode : Nat → Nat → Except ExecErr OpCode) (s : MachineContext) (pc : Nat)
    (opc : OpCode) (hpc : pc % WORD_SIZE = 0)
    (hdec : decode (loadWord s pc) pc = .ok opc) :
    ∃ r s', get_major decode s pc = .ok (r, s')
      ∧ ((s.faults.reads.Nonempty ∨ s.is_flushing = true) →
          r = MajorType.pageFault ∧ s'.insn_counter = s.insn_counter)
      ∧ ((s.faults.reads = ∅ ∧ s'.is_flushing = false) →
          r = opc.major ∧ s'.insn_counter = s.insn_counter + 1) := by
  have main : ∀ t : MachineContext, t.faults = s.faults →
      t.insn_counter = s.insn_counter → (s.is_flushing = true → t.is_flushing = true) →
      ∃ r s', ((if t.faults.reads.Nonempty then pure (MajorType.pageFault, t)
          else if t.is_flushing then pure (MajorType.pageFault, t)
          else pure (opc.major, { t with insn_counter := t.insn_counter + 1 }))
            : Except ExecErr (MajorType × MachineContext)) = .ok (r, s')
        ∧ ((s.faults.reads.Nonempty ∨ s.is_flushing = true) →
            r = MajorType.pageFault ∧ s'.insn_counter = s.insn_counter)
        ∧ ((s.faults.reads = ∅ ∧ s'.is_flushing = false) →
            r = opc.major ∧ s'.insn_counter = s.insn_counter + 1) := by
    intro t hfa hc hfl
    by_cases hr : t.faults.reads.Nonempty
    · refine ⟨MajorType.pageFault, t, by rw [if_pos hr]; rfl, fun _ => ⟨rfl, hc⟩, ?_⟩
      rintro ⟨h1, _⟩
      rw [hfa, h1] at hr
      exact absurd hr Finset.not_nonempty_empty
    · rw [if_neg hr]
      by_cases hf : t.is_flushing = true
      · refine ⟨MajorType.pageFault, t, by rw [if_pos hf]; rfl, fun _ => ⟨rfl, hc⟩, ?_⟩
        rintro ⟨_, h2⟩
        rw [hf] at h2
        exact absurd h2 (by simp)
      · refine ⟨opc.major, _, by rw [if_neg hf]; rfl, ?_, ?_⟩
        · intro hcond
          rcases hcond with h1 | h1
          · rw [← hfa] at h1
            exact absurd h1 hr
          · exact absurd (hfl h1) hf
        · intro _
          exact ⟨rfl, by simp [hc]⟩
  unfold get_major
  simp only [load_u32, if_pos hpc, bind_ok_red]
  rw [hdec, bind_ok_red]
  rcases ecallFlushUpdate_cases s opc with he | he <;> rw [he, bind_ok_red]
  · rcases splitFlushUpdate_cases s with hsp | hsp <;> rw [hsp]
    · exact main s rfl rfl (fun hf => hf)
    · exact main _ rfl rfl (fun _ => rfl)
  · rcases splitFlushUpdate_cases { s with is_flushing := true } with hsp | hsp <;> rw [hsp]
    · exact main _ rfl rfl (fun _ => rfl)
    · exact main _ rfl rfl (fun _ => rfl)

/-- Witness for C3: with a pending read fault for page 2 and an opcode
that decodes to an abstract non-ECall major class, `get_major` reports
`PageFault` and leaves the counter unchanged. -/
theorem c3_get_major_pagefault_gating_witness :
    ∃ r s', get_major decodeTriv stateC3 0 = .ok (r, s')
      ∧ r = MajorType.pageFault ∧ s'.insn_counter = stateC3.insn_counter := by
  obtain ⟨r, s', hrun, hcond, _⟩ :=
    c3_get_major_pagefault_gating decodeTriv stateC3 0 ⟨MajorType.other 7, 0⟩
      (by decide) rfl
  obtain ⟨h1, h2⟩ := hcond (Or.inl (by decide))
  exact ⟨r, s', hrun, h1, h2⟩

/-- Rust `!` bound: the `u32` complement is below `2^32`. -/
theorem not32_lt (y : Nat) : not32 y < 2 ^ 32 := by
  unfold not32
  omega

/-- The `u32` complement needs no wrap. -/
theorem not32_mod (y : Nat) : not32 y % 4294967296 = not32 y :=
  Nat.mod_eq_of_lt (not32_lt y)

/-- An in-range value wraps to itself. -/
theorem wrap32_ofNat (k : Nat) (hk : k < 2 ^ 32) : wrap32 (k : Int) = k := by
  unfold wrap32
  omega

/-- Wrapping the negation of an in-range value. -/
theorem wrap32_neg_ofNat (k : Nat) (hk : k ≤ 2 ^ 32) :
    wrap32 (-(k : Int)) = (2 ^ 32 - k) % 2 ^ 32 := by
  unfold wrap32
  omega

/-- Truncating remainder of a negated dividend. -/
theorem tmod_neg_left (a b : Int) : (-a).tmod b = -(a.tmod b) := by
  rw [Int.tmod_def, Int.tmod_def, Int.neg_tdiv]
  ring

/-- The signed value of a bit pattern below `2^31`. -/
theorem toInt32_pos (x : Nat) (h : x < 2 ^ 31) : toInt32 x = (x : Int) := by
  unfold toInt32
  rw [if_pos h]

/-- The signed value of a bit pattern with the top bit set. -/
theorem toInt32_neg (x : Nat) (hx : x < 2 ^ 32) (h : 2 ^ 31 ≤ x) :
    toInt32 x = -(((2 ^ 32 - x : Nat) : Int)) := by
  unfold toInt32
  rw [if_neg (by omega)]
  push_cast
  omega

/-- Sign mode 0: both operands unsigned, nothing is negated. -/
theorem divideWords_unsigned (n d : Nat) : divideWords n d 0 = divuSpec n d := by
  by_cases h : d = 0 <;> simp [divideWords, divuSpec, h]

/-- Sign mode 2 with a numerator below `2^31`: nothing is negated, so the
result is plain unsigned division. -/
theorem divideWords_two_small (n d : Nat) (hn31 : n < 2 ^ 31) :
    divideWords n d 2 = divuSpec n d := by
  by_cases h : d = 0 <;>
    simp [divideWords, divuSpec, h, show ¬2147483648 ≤ n from by omega]

/-- Sign mode 2, negative numerator, zero divisor: quotient all-ones
(the sign flip is suppressed because the divisor is zero) and remainder
the original numerator (the ones'-complement round-trips). -/
theorem divideWords_two_neg_zero (n : Nat) (hn : n < 2 ^ 32) (hn31 : 2 ^ 31 ≤ n) :
    divideWords n 0 2 = (0xffffffff, n) := by
  simp [divideWords, show (2147483648 : Nat) ≤ n from by omega, not32_mod, not32]
  omega

/-- Sign mode 2, negative numerator, nonzero divisor: the outputs are the
bit complements of the unsigned quotient and remainder of the complemented
numerator. -/
theorem divideWords_two_neg (n d : Nat) (hn31 : 2 ^ 31 ≤ n) (h : d ≠ 0) :
    divideWords n d 2 = (not32 (not32 n / d), not32 (not32 n % d)) := by
  simp [divideWords, show (2147483648 : Nat) ≤ n from by omega, not32_mod, h]

/-- Sign mode 1 with a zero divisor: quotient all-ones (the double
negation cancels in `quot_neg_out`) and remainder the original
numerator. -/
theorem divideWords_one_zero (n : Nat) (hn : n < 2 ^ 32) :
    divideWords n 0 1 = (0xffffffff, n) := by
  by_cases hn31 : 2 ^ 31 ≤ n
  · have hmag : (not32 n + 1) % 4294967296 = 4294967296 - n := by
      unfold not32
      omega
    simp [divideWords, show (2147483648 : Nat) ≤ n from by omega, hmag, not32]
    omega
  · simp [divideWords, show ¬(2147483648 : Nat) ≤ n from by omega]

/-- Sign mode 1, both operands non-negative. -/
theorem divideWords_one_pos_pos (n d : Nat) (hn31 : n < 2 ^ 31) (hd31 : d < 2 ^ 31)
    (h : d ≠ 0) : divideWords n d 1 = (n / d, n % d) := by
  simp [divideWords, show ¬(2147483648 : Nat) ≤ n from by omega,
    show ¬(2147483648 : Nat) ≤ d from by omega, h]

/-- Sign mode 1, negative numerator, positive divisor: quotient and
remainder of the magnitudes, both negated back. -/
theorem divideWords_one_neg_pos (n d : Nat) (hn : n < 2 ^ 32) (hn31 : 2 ^ 31 ≤ n)
    (hd31 : d < 2 ^ 31) (h : d ≠ 0) :
    divideWords n d 1 =
      ((2 ^ 32 - (2 ^ 32 - n) / d) % 2 ^ 32, (2 ^ 32 - (2 ^ 32 - n) % d) % 2 ^ 32) := by
  have hmag : (4294967295 - n + 1) % 4294967296 = 4294967296 - n := by omega
  have hq := Nat.div_le_self (4294967296 - n) d
  have hr := Nat.mod_le (4294967296 - n) d
  simp [divideWords, show (2147483648 : Nat) ≤ n from by omega,
    show ¬(2147483648 : Nat) ≤ d from by omega, h, hmag, not32]
  constructor <;> omega

/-- Sign mode 1, positive numerator, negative divisor: quotient negated,
remainder keeps the numerator's sign. -/
theorem divideWords_one_pos_neg (n d : Nat) (hn31 : n < 2 ^ 31) (hd : d < 2 ^ 32)
    (hd31 : 2 ^ 31 ≤ d) :
    divideWords n d 1 =
      ((2 ^ 32 - n / (2 ^ 32 - d)) % 2 ^ 32, n % (2 ^ 32 - d)) := by
  have hmag : (4294967295 - d + 1) % 4294967296 = 4294967296 - d := by omega
  have hdz : 4294967296 - d ≠ 0 := by omega
  have hq := Nat.div_le_self n (4294967296 - d)
  simp [divideWords, show ¬(2147483648 : Nat) ≤ n from by omega,
    show (2147483648 : Nat) ≤ d from by omega, hmag, hdz, not32]
  omega

/-- Sign mode 1, both operands negative: positive quotient of the
magnitudes, remainder negated back. -/
theorem divideWords_one_neg_neg (n d : Nat) (hn : n < 2 ^ 32) (hn31 : 2 ^ 31 ≤ n)
    (hd : d < 2 ^ 32) (hd31 : 2 ^ 31 ≤ d) :
    divideWords n d 1 =
      ((2 ^ 32 - n) / (2 ^ 32 - d),
        (2 ^ 32 - (2 ^ 32 - n) % (2 ^ 32 - d)) % 2 ^ 32) := by
  have hmagn : (4294967295 - n + 1) % 4294967296 = 4294967296 - n := by omega
  have hmagd : (4294967295 - d + 1) % 4294967296 = 4294967296 - d := by omega
  have hdz : 4294967296 - d ≠ 0 := by omega
  have hr := Nat.mod_le (4294967296 - n) (4294967296 - d)
  simp [divideWords, show (2147483648 : Nat) ≤ n from by omega,
    show (2147483648 : Nat) ≤ d from by omega, hmagn, hmagd, hdz, not32]
  omega

/-- RISC-V `DIV`/`REM` by zero. -/
theorem divsSpec_zero (n : Nat) : divsSpec n 0 = (0xffffffff, n) := by
  simp [divsSpec, toInt32]

/-- `divsSpec` on two non-negative operands. -/
theorem divsSpec_pos_pos (n d : Nat) (hn31 : n < 2 ^ 31) (hd31 : d < 2 ^ 31)
    (h : d ≠ 0) : divsSpec n d = (n / d, n % d) := by
  have h1 := Nat.div_le_self n d
  have h2 := Nat.mod_le n d
  unfold divsSpec
  rw [toInt32_pos n hn31, toInt32_pos d hd31,
    if_neg (Int.natCast_ne_zero.mpr h), ← Int.ofNat_tdiv, ← Int.ofNat_tmod,
    wrap32_ofNat _ (by omega), wrap32_ofNat _ (by omega)]

/-- `divsSpec` on a negative numerator and positive divisor. -/
theorem divsSpec_neg_pos (n d : Nat) (hn : n < 2 ^ 32) (hn31 : 2 ^ 31 ≤ n)
    (hd31 : d < 2 ^ 31) (h : d ≠ 0) :
    divsSpec n d =
      ((2 ^ 32 - (2 ^ 32 - n) / d) % 2 ^ 32, (2 ^ 32 - (2 ^ 32 - n) % d) % 2 ^ 32) := by
  have h1 := Nat.div_le_self (2 ^ 32 - n) d
  have h2 := Nat.mod_le (2 ^ 32 - n) d
  unfold divsSpec
  rw [toInt32_neg n hn hn31, toInt32_pos d hd31,
    if_neg (Int.natCast_ne_zero.mpr h), Int.neg_tdiv, tmod_neg_left,
    ← Int.ofNat_tdiv, ← Int.ofNat_tmod,
    wrap32_neg_ofNat _ (by omega), wrap32_neg_ofNat _ (by omega)]

/-- `divsSpec` on a positive numerator and negative divisor. -/
theorem divsSpec_pos_neg (n d : Nat) (hn31 : n < 2 ^ 31) (hd : d < 2 ^ 32)
    (hd31 : 2 ^ 31 ≤ d) :
    divsSpec n d =
      ((2 ^ 32 - n / (2 ^ 32 - d)) % 2 ^ 32, n % (2 ^ 32 - d)) := by
  have h1 := Nat.div_le_self n (2 ^ 32 - d)
  have h2 := Nat.mod_le n (2 ^ 32 - d)
  unfold divsSpec
  rw [toInt32_pos n hn31, toInt32_neg d hd hd31,
    if_neg (by
      intro hq
      have : ((2 ^ 32 - d : Nat) : Int) = 0 := by omega
      rw [Int.natCast_eq_zero] at this
      omega),
    Int.tdiv_neg, Int.tmod_neg, ← Int.ofNat_tdiv, ← Int.ofNat_tmod,
    wrap32_neg_ofNat _ (by omega), wrap32_ofNat _ (by omega)]

/-- `divsSpec` on two negative operands. -/
theorem divsSpec_neg_neg (n d : Nat) (hn : n < 2 ^ 32) (hn31 : 2 ^ 31 ≤ n)
    (hd : d < 2 ^ 32) (hd31 : 2 ^ 31 ≤ d) :
    divsSpec n d =
      ((2 ^ 32 - n) / (2 ^ 32 - d),
        (2 ^ 32 - (2 ^ 32 - n) % (2 ^ 32 - d)) % 2 ^ 32) := by
  have h1 := Nat.div_le_self (2 ^ 32 - n) (2 ^ 32 - d)
  have h2 := Nat.mod_le (2 ^ 32 - n) (2 ^ 32 - d)
  unfold divsSpec
  rw [toInt32_neg n hn hn31, toInt32_neg d hd hd31,
    if_neg (by
      intro hq
      have : ((2 ^ 32 - d : Nat) : Int) = 0 := by omega
      rw [Int.natCast_eq_zero] at this
      omega),
    Int.neg_tdiv_neg, Int.tmod_neg, tmod_neg_left, ← Int.ofNat_tdiv, ← Int.ofNat_tmod,
    wrap32_ofNat _ (by omega), wrap32_neg_ofNat _ (by omega)]

/-- Sign mode 1 agrees with RISC-V `DIV`/`REM` semantics everywhere:
truncating signed division (with the `INT_MIN / -1` wrap-around falling
out of the mod-`2^32` arithmetic) and the divide-by-zero convention. -/
theorem divideWords_signed (n d : Nat) (hn : n < 2 ^ 32) (hd : d < 2 ^ 32) :
    divideWords n d 1 = divsSpec n d := by
  by_cases h : d = 0
  · subst h
    rw [divideWords_one_zero n hn, divsSpec_zero]
  · by_cases hn31 : 2 ^ 31 ≤ n <;> by_cases hd31 : 2 ^ 31 ≤ d
    · rw [divideWords_one_neg_neg n d hn hn31 hd hd31,
        divsSpec_neg_neg n d hn hn31 hd hd31]
    · rw [divideWords_one_neg_pos n d hn hn31 (by omega) h,
        divsSpec_neg_pos n d hn hn31 (by omega) h]
    · rw [divideWords_one_pos_neg n d (by omega) hd hd31,
        divsSpec_pos_neg n d (by omega) hd hd31]
    · rw [divideWords_one_pos_pos n d (by omega) (by omega) h,
        divsSpec_pos_pos n d (by omega) (by omega) h]

/-- Sign mode 2 on a negative numerator and nonzero divisor forms the
ones'-complement division of the complemented numerator: the complements
of the two outputs are exactly the Euclidean quotient and remainder of
the complemented numerator by the (unsigned) divisor. -/
theorem divideWords_ones_comp (n d : Nat) (hn : n < 2 ^ 32) (hn31 : 2 ^ 31 ≤ n)
    (h : d ≠ 0) :
    (0xffffffff - (divideWords n d 2).1) * d + (0xffffffff - (divideWords n d 2).2)
        = 0xffffffff - n
    ∧ 0xffffffff - (divideWords n d 2).2 < d := by
  rw [divideWords_two_neg n d hn31 h]
  dsimp only
  have cancel : ∀ x : Nat, x ≤ 0xffffffff → 0xffffffff - not32 x = x := by
    intro x hx
    unfold not32
    omega
  have hnle : not32 n ≤ 0xffffffff := by
    unfold not32
    omega
  constructor
  · rw [cancel _ (le_trans (Nat.div_le_self _ _) hnle),
      cancel _ (le_trans (Nat.mod_le _ _) hnle), Nat.mul_comm]
    show d * (not32 n / d) + not32 n % d = not32 n
    exact Nat.div_add_mod _ _
  · rw [cancel _ (le_trans (Nat.mod_le _ _) hnle)]
    exact Nat.mod_lt _ (by omega)

/-- Claim C2: on 4-limb base-256 operands (equivalently, merged `u32`
words `n, d < 2^32`) the `divide` core matches the native 32-bit
semantics of each sign mode.  Mode 0 is unsigned `DIVU`/`REMU`; mode 1 is
two's-complement `DIV`/`REM` (truncating quotient and remainder via
`Int.tdiv`/`Int.tmod`, wrapped to 32 bits); mode 2 is the
ones'-complement variant: a numerator below `2^31` divides unsigned, and
a negative numerator yields outputs whose complements form the Euclidean
division of the complemented numerator.  In every mode a zero divisor
gives quotient `0xFFFFFFFF` — the sign flip from the XOR rule is
suppressed exactly when the divisor is zero and the numerator was negated
— and remainder equal to the original (un-negated) numerator. -/
theorem c2_divide_native_semantics (n d : Nat) (hn : n < 2 ^ 32) (hd : d < 2 ^ 32) :
    divideWords n d 0 = divuSpec n d
    ∧ divideWords n d 1 = divsSpec n d
    ∧ (n < 2 ^ 31 → divideWords n d 2 = divuSpec n d)
    ∧ (2 ^ 31 ≤ n → d = 0 → divideWords n d 2 = (0xffffffff, n))
    ∧ (2 ^ 31 ≤ n → d ≠ 0 →
        (0xffffffff - (divideWords n d 2).1) * d + (0xffffffff - (divideWords n d 2).2)
            = 0xffffffff - n
        ∧ 0xffffffff - (divideWords n d 2).2 < d) := by
  refine ⟨divideWords_unsigned n d, divideWords_signed n d hn hd,
    fun h1 => divideWords_two_small n d h1,
    fun h1 h2 => ?_,
    fun h1 h2 => divideWords_ones_comp n d hn h1 h2⟩
  subst h2
  exact divideWords_two_neg_zero n hn h1

/-- Witness for C2: the signed division `-7 / 2` (numerator bit pattern
`0xFFFFFFF9`) matches `divsSpec`, and concretely evaluates to quotient
`-3` (`0xFFFFFFFD`) and remainder `-1` (`0xFFFFFFFF`). -/
theorem c2_divide_native_semantics_witness :
    divideWords 4294967289 2 1 = divsSpec 4294967289 2
    ∧ divideWords 4294967289 2 1 = (4294967293, 4294967295) :=
  ⟨(c2_divide_native_semantics 4294967289 2 (by norm_num) (by norm_num)).2.1,
    by norm_num [divideWords, not32]⟩


/-- The remainder returned by `takeDigits` never grows. -/
theorem takeDigits_snd_le (cs : List Char) : (takeDigits cs).2.length ≤ cs.length := by
  induction cs with
  | nil => simp [takeDigits]
  | cons c cs ih =>
      simp only [takeDigits]
      by_cases hd : c.isDigit
      · simp only [hd, if_pos]
        exact le_trans ih (Nat.le_succ _)
      · simp [hd]

/-- Unfolding: scanning the empty format string. -/
theorem fmtScan_nil (args : List Nat) : fmtScan [] args = .ok ([], args) := by
  rw [fmtScan]

/-- Unfolding: an ordinary character is copied verbatim. -/
theorem fmtScan_cons_nonpct (c : Char) (cs : List Char) (args : List Nat)
    (hc : ¬c = '%') :
    fmtScan (c :: cs) args = (do
      let (s, args1) ← fmtScan cs args
      Except.ok (c :: s, args1)) := by
  rw [fmtScan]
  rw [if_neg hc]

/-- Unfolding: a `%` whose width digits are followed by a non-class
character is ordinary text. -/
theorem fmtScan_pct_nospec (cs : List Char) (args : List Nat)
    (digits : List Char) (c2 : Char) (rest : List Char)
    (htd : takeDigits cs = (digits, c2 :: rest)) (hns : ¬isSpecChar c2 = true) :
    fmtScan ('%' :: cs) args = (do
      let (s, args1) ← fmtScan cs args
      Except.ok ('%' :: s, args1)) := by
  rw [fmtScan]
  rw [if_pos rfl]
  split
  case h_1 d2 c3 r2 heq =>
    rw [htd] at heq
    obtain ⟨h1, h2, h3⟩ : digits = d2 ∧ c2 = c3 ∧ rest = r2 := by
      simp at heq
      tauto
    subst h1; subst h2; subst h3
    rw [if_neg hns]
  case h_2 => rfl

/-- Unfolding: a trailing `%` followed only by digits is ordinary text. -/
theorem fmtScan_pct_nil (cs : List Char) (args : List Nat) (digits : List Char)
    (htd : takeDigits cs = (digits, [])) :
    fmtScan ('%' :: cs) args = (do
      let (s, args1) ← fmtScan cs args
      Except.ok ('%' :: s, args1)) := by
  rw [fmtScan]
  rw [if_pos rfl]
  split
  case h_1 d2 c3 r2 heq =>
    rw [htd] at heq
    simp at heq
  case h_2 => rfl

/-- Unfolding: a matched conversion applies `applySpec` and scans on
after the class character. -/
theorem fmtScan_pct_spec (cs : List Char) (args : List Nat)
    (digits : List Char) (c2 : Char) (rest : List Char)
    (htd : takeDigits cs = (digits, c2 :: rest)) (hs : isSpecChar c2 = true) :
    fmtScan ('%' :: cs) args = (do
      let (piece, args1) ← applySpec c2 (parseWidth digits) args
      let (s, args2) ← fmtScan rest args1
      Except.ok (piece ++ s, args2)) := by
  rw [fmtScan]
  rw [if_pos rfl]
  split
  case h_1 d2 c3 r2 heq =>
    rw [htd] at heq
    obtain ⟨h1, h2, h3⟩ : digits = d2 ∧ c2 = c3 ∧ rest = r2 := by
      simp at heq
      tauto
    subst h1; subst h2; subst h3
    rw [if_pos hs]
  case h_2 d2 heq =>
    rw [htd] at heq
    simp at heq

/-- Unfolding lemmas for the argument count, mirroring the scanner. -/
theorem argsNeeded_nil : argsNeeded [] = 0 := by
  rw [argsNeeded]

/-- An ordinary character needs no arguments. -/
theorem argsNeeded_cons_nonpct (c : Char) (cs : List Char) (hc : ¬c = '%') :
    argsNeeded (c :: cs) = argsNeeded cs := by
  rw [argsNeeded]
  rw [if_neg hc]

/-- A `%` not starting a conversion needs no arguments of its own. -/
theorem argsNeeded_pct_nospec (cs : List Char) (digits : List Char) (c2 : Char)
    (rest : List Char) (htd : takeDigits cs = (digits, c2 :: rest))
    (hns : ¬isSpecChar c2 = true) :
    argsNeeded ('%' :: cs) = argsNeeded cs := by
  rw [argsNeeded]
  rw [if_pos rfl]
  split
  case h_1 d2 c3 r2 heq =>
    rw [htd] at heq
    obtain ⟨h1, h2, h3⟩ : digits = d2 ∧ c2 = c3 ∧ rest = r2 := by
      simp at heq
      tauto
    subst h1; subst h2; subst h3
    rw [if_neg hns]
  case h_2 => rfl

/-- A trailing `%` needs no arguments. -/
theorem argsNeeded_pct_nil (cs : List Char) (digits : List Char)
    (htd : takeDigits cs = (digits, [])) :
    argsNeeded ('%' :: cs) = argsNeeded cs := by
  rw [argsNeeded]
  rw [if_pos rfl]
  split
  case h_1 d2 c3 r2 heq =>
    rw [htd] at heq
    simp at heq
  case h_2 => rfl

/-- A matched conversion needs its own arguments plus the rest. -/
theorem argsNeeded_pct_spec (cs : List Char) (digits : List Char) (c2 : Char)
    (rest : List Char) (htd : takeDigits cs = (digits, c2 :: rest))
    (hs : isSpecChar c2 = true) :
    argsNeeded ('%' :: cs) = specArgCount c2 + argsNeeded rest := by
  rw [argsNeeded]
  rw [if_pos rfl]
  split
  case h_1 d2 c3 r2 heq =>
    rw [htd] at heq
    obtain ⟨h1, h2, h3⟩ : digits = d2 ∧ c2 = c3 ∧ rest = r2 := by
      simp at heq
      tauto
    subst h1; subst h2; subst h3
    rw [if_pos hs]
  case h_2 d2 heq =>
    rw [htd] at heq
    simp at heq


/-- `applySpec` consumes exactly `specArgCount c` arguments: it succeeds
leaving the rest when enough are available and panics with the
`Log arg mismatch` message otherwise. -/
theorem applySpec_args (c : Char) (hc : isSpecChar c = true) (w : Nat)
    (args : List Nat) :
    (specArgCount c ≤ args.length →
      ∃ piece, applySpec c w args = .ok (piece, args.drop (specArgCount c)))
    ∧ (args.length < specArgCount c →
      applySpec c w args = .error (.fatal "Log arg mismatch")) := by
  have hcases : c = 'x' ∨ c = 'u' ∨ c = 'd' ∨ c = 'w' ∨ c = '%' := by
    simp [isSpecChar] at hc
    tauto
  rcases hcases with h | h | h | h | h <;> subst h
  · constructor
    · intro hlen
      rcases args with _ | ⟨a, rest⟩
      · exact absurd hlen (by decide)
      · exact ⟨_, rfl⟩
    · intro hlen
      rcases args with _ | ⟨a, rest⟩
      · rfl
      · exfalso
        simp [specArgCount] at hlen
  · constructor
    · intro hlen
      rcases args with _ | ⟨a, rest⟩
      · exact absurd hlen (by decide)
      · exact ⟨_, rfl⟩
    · intro hlen
      rcases args with _ | ⟨a, rest⟩
      · rfl
      · exfalso
        simp [specArgCount] at hlen
  · constructor
    · intro hlen
      rcases args with _ | ⟨a, rest⟩
      · exact absurd hlen (by decide)
      · exact ⟨_, rfl⟩
    · intro hlen
      rcases args with _ | ⟨a, rest⟩
      · rfl
      · exfalso
        simp [specArgCount] at hlen
  · constructor
    · intro hlen
      rcases args with _ | ⟨a0, _ | ⟨a1, _ | ⟨a2, _ | ⟨a3, rest⟩⟩⟩⟩
      · exfalso
        simp [specArgCount] at hlen
      · exfalso
        simp [specArgCount] at hlen
      · exfalso
        simp [specArgCount] at hlen
      · exfalso
        simp [specArgCount] at hlen
      · by_cases h255 : a0 ≤ 255 ∧ a1 ≤ 255 ∧ a2 ≤ 255 ∧ a3 ≤ 255
        · simp [applySpec, nextArg, bind_ok_red, h255]
          rfl
        · simp [applySpec, nextArg, bind_ok_red, h255]
          rfl
    · intro hlen
      rcases args with _ | ⟨a0, _ | ⟨a1, _ | ⟨a2, _ | ⟨a3, rest⟩⟩⟩⟩
      · rfl
      · rfl
      · rfl
      · rfl
      · exfalso
        simp [specArgCount] at hlen
        omega
  · constructor
    · intro _
      exact ⟨_, rfl⟩
    · intro hlen
      exfalso
      simp [specArgCount] at hlen


/-- The scanner consumes exactly `argsNeeded cs` arguments: with enough
arguments it succeeds and returns the leftover suffix, and with too few it
panics with the `Log arg mismatch` message.  Induction on a length
bound. -/
theorem fmtScan_args : ∀ (N : Nat) (cs : List Char), cs.length ≤ N →
    ∀ args : List Nat,
    (argsNeeded cs ≤ args.length →
      ∃ s, fmtScan cs args = .ok (s, args.drop (argsNeeded cs)))
    ∧ (args.length < argsNeeded cs →
      fmtScan cs args = .error (.fatal "Log arg mismatch")) := by
  intro N
  induction N with
  | zero =>
      intro cs hcs args
      have hnil : cs = [] := List.eq_nil_of_length_eq_zero (Nat.le_zero.mp hcs)
      subst hnil
      rw [argsNeeded_nil]
      exact ⟨fun _ => ⟨[], by rw [fmtScan_nil]; rfl⟩, fun h => absurd h (by omega)⟩
  | succ N ih =>
      intro cs hcs args
      rcases cs with _ | ⟨c, cs'⟩
      · rw [argsNeeded_nil]
        exact ⟨fun _ => ⟨[], by rw [fmtScan_nil]; rfl⟩, fun h => absurd h (by omega)⟩
      · have hlen : cs'.length ≤ N := by
          simp at hcs
          omega
        by_cases hc : c = '%'
        · subst hc
          rcases htd : takeDigits cs' with ⟨digits, rest0⟩
          rcases rest0 with _ | ⟨c2, rest⟩
          · rw [argsNeeded_pct_nil cs' digits htd]
            obtain ⟨ihA, ihB⟩ := ih cs' hlen args
            constructor
            · intro hle
              obtain ⟨s, hs⟩ := ihA hle
              exact ⟨'%' :: s,
                by simp only [fmtScan_pct_nil cs' args digits htd, hs, bind_ok_red]⟩
            · intro hlt
              simp only [fmtScan_pct_nil cs' args digits htd, ihB hlt, bind_err_red]
          · have hrest : rest.length ≤ N := by
              have hsnd := takeDigits_snd_le cs'
              rw [htd] at hsnd
              simp at hsnd
              omega
            by_cases hspec : isSpecChar c2 = true
            · rw [argsNeeded_pct_spec cs' digits c2 rest htd hspec]
              constructor
              · intro hle
                have hsc : specArgCount c2 ≤ args.length := by omega
                obtain ⟨piece, hp⟩ :=
                  (applySpec_args c2 hspec (parseWidth digits) args).1 hsc
                obtain ⟨ihA, _⟩ := ih rest hrest (args.drop (specArgCount c2))
                have hle2 : argsNeeded rest ≤ (args.drop (specArgCount c2)).length := by
                  rw [List.length_drop]
                  omega
                obtain ⟨s, hs⟩ := ihA hle2
                refine ⟨piece ++ s, ?_⟩
                simp only [fmtScan_pct_spec cs' args digits c2 rest htd hspec, hp,
                  bind_ok_red, hs, List.drop_drop]
                try rw [Nat.add_comm (argsNeeded rest) (specArgCount c2)]
              · intro hlt
                by_cases hsc : specArgCount c2 ≤ args.length
                · obtain ⟨piece, hp⟩ :=
                    (applySpec_args c2 hspec (parseWidth digits) args).1 hsc
                  obtain ⟨_, ihB⟩ := ih rest hrest (args.drop (specArgCount c2))
                  have hlt2 : (args.drop (specArgCount c2)).length < argsNeeded rest := by
                    rw [List.length_drop]
                    omega
                  simp only [fmtScan_pct_spec cs' args digits c2 rest htd hspec, hp,
                    bind_ok_red, ihB hlt2, bind_err_red]
                · have herr :=
                    (applySpec_args c2 hspec (parseWidth digits) args).2 (by omega)
                  simp only [fmtScan_pct_spec cs' args digits c2 rest htd hspec, herr,
                    bind_err_red]
            · rw [argsNeeded_pct_nospec cs' digits c2 rest htd hspec]
              obtain ⟨ihA, ihB⟩ := ih cs' hlen args
              constructor
              · intro hle
                obtain ⟨s, hs⟩ := ihA hle
                exact ⟨'%' :: s,
                  by simp only [fmtScan_pct_nospec cs' args digits c2 rest htd hspec,
                    hs, bind_ok_red]⟩
              · intro hlt
                simp only [fmtScan_pct_nospec cs' args digits c2 rest htd hspec,
                  ihB hlt, bind_err_red]
        · rw [argsNeeded_cons_nonpct c cs' hc]
          obtain ⟨ihA, ihB⟩ := ih cs' hlen args
          constructor
          · intro hle
            obtain ⟨s, hs⟩ := ihA hle
            exact ⟨c :: s,
              by simp only [fmtScan_cons_nonpct c cs' args hc, hs, bind_ok_red]⟩
          · intro hlt
            simp only [fmtScan_cons_nonpct c cs' args hc, ihB hlt, bind_err_red]


/-- Claim C7: at trace verbosity, `log` formats the C-style message
against the argument list, consuming exactly the number of arguments the
conversions require (`%w` takes four one-byte arguments rendered as one
little-endian word), and both a too-short and a too-long argument list
are fatal errors; below trace verbosity, `log` returns immediately,
consumes nothing and never fails.  Concretely, formatting
`"val=%4u hex=%02x"` with `[7, 255]` at trace verbosity produces
`"val=   7 hex=0xff"`. -/
theorem c7_log_formatting :
    (∀ (max_level : Nat) (msg : String) (args : List Nat),
      LevelFilterTrace ≤ max_level → args.length = argsNeeded msg.toList →
      ∃ out, logCall max_level msg args = .ok (some out))
    ∧ (∀ (max_level : Nat) (msg : String) (args : List Nat),
      LevelFilterTrace ≤ max_level → args.length ≠ argsNeeded msg.toList →
      ∃ e, logCall max_level msg args = .error (.fatal e))
    ∧ (∀ (max_level : Nat) (msg : String) (args : List Nat),
      max_level < LevelFilterTrace → logCall max_level msg args = .ok none)
    ∧ logCall 5 "val=%4u hex=%02x" [7, 255] = .ok (some "val=   7 hex=0xff") := by
  refine ⟨?_, ?_, ?_, ?_⟩
  · intro max_level msg args hlvl heq
    obtain ⟨A, _⟩ := fmtScan_args msg.toList.length msg.toList le_rfl args
    obtain ⟨s, hs⟩ := A (le_of_eq heq.symm)
    have hdrop : (args.drop (argsNeeded msg.toList)).length = 0 := by
      rw [List.length_drop]
      omega
    refine ⟨String.mk s, ?_⟩
    unfold logCall
    rw [if_neg (show ¬max_level < LevelFilterTrace by omega)]
    simp only [hs, bind_ok_red]
    rw [if_pos hdrop]
  · intro max_level msg args hlvl hne
    rcases Nat.lt_or_ge args.length (argsNeeded msg.toList) with hlt | hge
    · obtain ⟨_, B⟩ := fmtScan_args msg.toList.length msg.toList le_rfl args
      refine ⟨"Log arg mismatch", ?_⟩
      unfold logCall
      rw [if_neg (show ¬max_level < LevelFilterTrace by omega)]
      simp only [B hlt, bind_err_red]
    · obtain ⟨A, _⟩ := fmtScan_args msg.toList.length msg.toList le_rfl args
      obtain ⟨s, hs⟩ := A hge
      have hdrop : (args.drop (argsNeeded msg.toList)).length ≠ 0 := by
        rw [List.length_drop]
        omega
      refine ⟨"Args missing formatting", ?_⟩
      unfold logCall
      rw [if_neg (show ¬max_level < LevelFilterTrace by omega)]
      simp only [hs, bind_ok_red]
      rw [if_neg hdrop]
  · intro max_level msg args hlvl
    unfold logCall
    rw [if_pos hlvl]
  · have e1 : fmtScan ('%' :: ['4', 'u', ' ', 'h', 'e', 'x', '=', '%', '0', '2', 'x'])
        [7, 255] = (do
        let (piece, args1) ← applySpec 'u' (parseWidth ['4']) [7, 255]
        let (s, args2) ← fmtScan [' ', 'h', 'e', 'x', '=', '%', '0', '2', 'x'] args1
        Except.ok (piece ++ s, args2)) :=
      fmtScan_pct_spec _ _ _ _ _ rfl rfl
    have e2 : fmtScan ('%' :: ['0', '2', 'x']) [255] = (do
        let (piece, args1) ← applySpec 'x' (parseWidth ['0', '2']) [255]
        let (s, args2) ← fmtScan [] args1
        Except.ok (piece ++ s, args2)) :=
      fmtScan_pct_spec _ _ _ _ _ rfl rfl
    have a1 : applySpec 'u' (parseWidth ['4']) [7, 255] =
        .ok ([' ', ' ', ' ', '7'], [255]) := rfl
    have a2 : applySpec 'x' (parseWidth ['0', '2']) [255] =
        .ok (['0', 'x', 'f', 'f'], []) := rfl
    unfold logCall
    rw [if_neg (by decide)]
    simp [fmtScan_cons_nonpct, fmtScan_nil, e1, e2, a1, a2, bind_ok_red]

/-- Witness for C7: below trace verbosity `log` is a no-op even with a
mismatched argument list, and at trace verbosity the concrete format
string with a matching argument list formats successfully. -/
theorem c7_log_formatting_witness :
    logCall 0 "val=%4u hex=%02x" [7] = .ok none
    ∧ ∃ out, logCall 5 "val=%4u hex=%02x" [7, 255] = .ok (some out) := by
  have n1 : argsNeeded ('%' :: ['4', 'u', ' ', 'h', 'e', 'x', '=', '%', '0', '2', 'x']) =
      specArgCount 'u' + argsNeeded [' ', 'h', 'e', 'x', '=', '%', '0', '2', 'x'] :=
    argsNeeded_pct_spec _ _ _ _ rfl rfl
  have n2 : argsNeeded ('%' :: ['0', '2', 'x']) = specArgCount 'x' + argsNeeded [] :=
    argsNeeded_pct_spec _ _ _ _ rfl rfl
  refine ⟨c7_log_formatting.2.2.1 0 "val=%4u hex=%02x" [7] (by decide),
    c7_log_formatting.1 5 "val=%4u hex=%02x" [7, 255] (by decide) ?_⟩
  simp [argsNeeded_cons_nonpct, argsNeeded_nil, n1, n2, specArgCount]

end Risc0Exec
